import Mathlib

/-!
Verification of the gjalla-cli classification-and-reorganization engine.

The definitions below are shallow embeddings of the Python sources of the
repository.  The requirements-aggregator and directory-creator components are
embedded from the implementation classes contained in
`tests_and_validations/test_requirements_aggregator_simple.py` and
`tests_and_validations/test_directory_creator_simple.py`.  Components whose
implementation modules are not part of the source tree (the reorganizer /
backup manager, the classifier's score combination and the structure
validator's score) are modelled from the specification; each such definition
carries a doc comment starting with `Modelled from the spec:`.

Strings are treated as sequences of characters; Python text predicates
(`str.strip`, `str.lower`, `\s`, `\w`) are embedded for the ASCII fragment
that the repository's data exercises.  Python floats are embedded as
rationals.
-/

set_option maxHeartbeats 1000000

namespace Gjalla

/-! ### Python text primitives used by `RequirementsAggregator` -/

/-- Python's whitespace class `\s` (space, tab, newline, carriage return,
vertical tab, form feed), as used by `str.strip`, `str.split()` and the
`\s+` regular expression in `_normalize_text`. -/
def pyIsSpace (c : Char) : Bool :=
  c == Char.ofNat 32 || c == Char.ofNat 9 || c == Char.ofNat 10 ||
  c == Char.ofNat 13 || c == Char.ofNat 11 || c == Char.ofNat 12

/-- Python's word-character class `\w` (alphanumeric or underscore), used by
the `[^\w\s]` regular expression in `_normalize_text`. -/
def pyIsWord (c : Char) : Bool :=
  c.isAlphanum || c == '_'

/-- `str.strip()` on a character list: drop whitespace at both ends. -/
def pyStripList (cs : List Char) : List Char :=
  ((cs.dropWhile pyIsSpace).reverse.dropWhile pyIsSpace).reverse

/-- `str.strip()`. -/
def pyStrip (s : String) : String :=
  String.mk (pyStripList s.data)

/-- `str.lower()`. -/
def pyLower (s : String) : String :=
  String.mk (s.data.map Char.toLower)

/-- `re.sub(r"\s+", " ", ·)`: replace every maximal whitespace run by a
single space.  The boolean argument records whether the previous character
belonged to a whitespace run. -/
def collapseWsAux : Bool → List Char → List Char
  | _, [] => []
  | prevSpace, c :: cs =>
    if pyIsSpace c then
      if prevSpace then collapseWsAux true cs
      else Char.ofNat 32 :: collapseWsAux true cs
    else c :: collapseWsAux false cs

/-- Splitting a character list at every separator character, keeping empty
pieces — `n` separators yield `n + 1` pieces, as Python's `str.split(sep)`
does. -/
def splitOnPred (p : Char → Bool) : List Char → List (List Char)
  | [] => [[]]
  | c :: rest =>
    match splitOnPred p rest with
    | [] => [[]]
    | g :: gs => if p c then [] :: g :: gs else (c :: g) :: gs

/-- `str.split()` with no separator: the maximal nonempty runs of
non-whitespace characters. -/
def pyWords (s : String) : List String :=
  ((splitOnPred pyIsSpace s.data).map String.mk).filter (fun w => !w.isEmpty)

/-- `content.split("\n")`. -/
def pyLines (s : String) : List String :=
  ((splitOnPred (fun c => c == Char.ofNat 10) s.data).map String.mk)

/-! ### Data model of `RequirementsAggregator`
(from `test_requirements_aggregator_simple.py`) -/

inductive RequirementType where
  | ears
  | general
  | userStory
deriving DecidableEq, Repr

/-- The `ExtractedRequirement` dataclass.  `source_file` is kept as the file
name string; the `extraction_timestamp` field (a wall-clock default) is not
part of the pure model. -/
structure ExtractedRequirement where
  text : String
  sourceFile : String
  lineNumber : Nat
  requirementType : RequirementType
  confidence : ℚ
  context : String
deriving DecidableEq, Repr

/-- The three compiled pattern families of the aggregator.  A compiled
regular expression is embedded as its `search` truth value on a line; the
extraction code only branches on whether `pattern.search(line)` produced a
match, never on the match's contents. -/
structure AggregatorPatterns where
  earsPatterns : List (String → Bool)
  generalPatterns : List (String → Bool)
  userStoryPatterns : List (String → Bool)

/-- `_get_context`: the line itself, truncated to `maxLength` with a
trailing ellipsis when longer. -/
def getContext (line : String) (maxLength : Nat) : String :=
  if line.length ≤ maxLength then line
  else line.take (maxLength - 3) ++ "..."

/-- A pattern family matches a line when some pattern in the list does
(`for pattern in patterns: if pattern.search(line): ...`). -/
def searchAny (patterns : List (String → Bool)) (line : String) : Bool :=
  patterns.any (fun p => p line)

/-- `_extract_ears_requirement`. -/
def extractEarsRequirement (P : AggregatorPatterns) (line filePath : String)
    (lineNum : Nat) : Option ExtractedRequirement :=
  if searchAny P.earsPatterns line then
    some { text := pyStrip line, sourceFile := filePath, lineNumber := lineNum,
           requirementType := RequirementType.ears, confidence := mkRat 9 10,
           context := getContext line 50 }
  else none

/-- `_extract_general_requirement`. -/
def extractGeneralRequirement (P : AggregatorPatterns) (line filePath : String)
    (lineNum : Nat) : Option ExtractedRequirement :=
  if searchAny P.generalPatterns line then
    some { text := pyStrip line, sourceFile := filePath, lineNumber := lineNum,
           requirementType := RequirementType.general, confidence := mkRat 7 10,
           context := getContext line 50 }
  else none

/-- `_extract_user_story`. -/
def extractUserStory (P : AggregatorPatterns) (line filePath : String)
    (lineNum : Nat) : Option ExtractedRequirement :=
  if searchAny P.userStoryPatterns line then
    some { text := pyStrip line, sourceFile := filePath, lineNumber := lineNum,
           requirementType := RequirementType.userStory, confidence := mkRat 8 10,
           context := getContext line 50 }
  else none

/-- The body of `extract_requirements`' per-line loop: strip the line, skip
it when empty, otherwise try EARS, then general, then user-story patterns,
the first family that matches producing the line's single record. -/
def extractLineRequirement (P : AggregatorPatterns) (filePath : String)
    (lineNum : Nat) (rawLine : String) : Option ExtractedRequirement :=
  let line := pyStrip rawLine
  if line.isEmpty then none
  else
    match extractEarsRequirement P line filePath lineNum with
    | some r => some r
    | none =>
      match extractGeneralRequirement P line filePath lineNum with
      | some r => some r
      | none => extractUserStory P line filePath lineNum

/-- The `for line_num, line in enumerate(lines, 1)` loop of
`extract_requirements`. -/
def extractLoop (P : AggregatorPatterns) (filePath : String) :
    Nat → List String → List ExtractedRequirement
  | _, [] => []
  | lineNum, l :: ls =>
    match extractLineRequirement P filePath lineNum l with
    | some r => r :: extractLoop P filePath (lineNum + 1) ls
    | none => extractLoop P filePath (lineNum + 1) ls

/-- `extract_requirements`: split the content on newlines and scan the lines
with one-based line numbers. -/
def extract_requirements (P : AggregatorPatterns) (content filePath : String) :
    List ExtractedRequirement :=
  extractLoop P filePath 1 (pyLines content)

/-- `_normalize_text`: lowercase, strip, collapse whitespace runs, then drop
every character that is neither a word character nor whitespace. -/
def normalize_text (text : String) : String :=
  let collapsed := collapseWsAux false (pyStripList (pyLower text).data)
  String.mk (collapsed.filter (fun c => pyIsWord c || pyIsSpace c))

/-- `len(words1.intersection(words2))` for word lists without duplicates. -/
def setInterLen (w1 w2 : List String) : Nat :=
  (w1.filter (fun w => w2.contains w)).length

/-- `len(words1.union(words2))` for word lists without duplicates. -/
def setUnionLen (w1 w2 : List String) : Nat :=
  (w1 ++ w2).dedup.length

/-- `_are_similar`: token-set Jaccard similarity of the normalized texts
compared against the threshold; `False` when either word set is empty.
The source's `intersection / union if union > 0 else 0.0` is embedded as
`mkRat inter uni`, which is exactly `inter / uni` and `0` when `uni = 0`
(the floats of the source are embedded as rationals throughout). -/
def are_similar (text1 text2 : String) (threshold : ℚ) : Bool :=
  let w1 := (pyWords (normalize_text text1)).dedup
  let w2 := (pyWords (normalize_text text2)).dedup
  if w1.isEmpty || w2.isEmpty then false
  else
    let inter := setInterLen w1 w2
    let uni := setUnionLen w1 w2
    let sim : ℚ := mkRat inter uni
    decide (threshold ≤ sim)

/-- The loop of `deduplicate_requirements`: `unique` is the list kept so
far, `seen` the normalized texts of the kept requirements. -/
def dedupLoop : List ExtractedRequirement → List ExtractedRequirement →
    List String → List ExtractedRequirement
  | [], unique, _ => unique
  | req :: rest, unique, seen =>
    let n := normalize_text req.text
    if seen.contains n then dedupLoop rest unique seen
    else if unique.any (fun ex => are_similar req.text ex.text (mkRat 8 10)) then
      dedupLoop rest unique seen
    else dedupLoop rest (unique ++ [req]) (seen ++ [n])

/-- `deduplicate_requirements` with the default similarity threshold 0.8. -/
def deduplicate_requirements (reqs : List ExtractedRequirement) :
    List ExtractedRequirement :=
  dedupLoop reqs [] []

/-- Python's `f"{x:.2f}"` on a nonnegative value: two decimal places,
rounding half up (the repository only formats the constants 0.9, 0.7, 0.8,
which are exact in this embedding). -/
def fmt2 (q : ℚ) : String :=
  let m : Nat := (⌊q * 100 + 1/2⌋).toNat
  toString (m / 100) ++ "." ++ (if m % 100 < 10 then "0" else "") ++ toString (m % 100)

/-- The per-requirement blocks of the `## EARS Format Requirements` section,
from `for i, req in enumerate(ears_reqs, 1)`. -/
def earsBlocks : Nat → List ExtractedRequirement → List String
  | _, [] => []
  | i, r :: rs =>
    ["### Requirement " ++ toString i, "",
     "**Text:** " ++ r.text,
     "**Source:** " ++ r.sourceFile ++ ":" ++ toString r.lineNumber,
     "**Confidence:** " ++ fmt2 r.confidence, ""] ++ earsBlocks (i + 1) rs

/-- The line list built by `format_as_ears`.  The wall-clock generation time
is passed in as `now`.  The source computes the general and user-story
groups as well but only ever appends the EARS group to the document. -/
def formatLines (now : String) (requirements : List ExtractedRequirement) :
    List String :=
  let headerLines :=
    ["# Requirements Aggregate", "",
     "This document contains all requirements extracted from the project documentation,",
     "formatted in EARS (Easy Approach to Requirements Syntax) format.", "",
     "**Generated:** " ++ now,
     "**Total Requirements:** " ++ toString requirements.length, ""]
  let earsReqs := requirements.filter
    (fun r => decide (r.requirementType = RequirementType.ears))
  if earsReqs.isEmpty then headerLines
  else headerLines ++ ["## EARS Format Requirements", ""] ++ earsBlocks 1 earsReqs

/-- `format_as_ears`: the joined document text. -/
def format_as_ears (now : String) (requirements : List ExtractedRequirement) :
    String :=
  String.intercalate "\n" (formatLines now requirements)

/-- Does `pat` start `hay`? -/
def startsList : List Char → List Char → Bool
  | [], _ => true
  | _ :: _, [] => false
  | p :: ps, h :: hs => p == h && startsList ps hs

/-- Does `pat` occur inside `hay`? -/
def hasSub : List Char → List Char → Bool
  | hay, pat =>
    match hay with
    | [] => startsList pat []
    | _ :: t => startsList pat hay || hasSub t pat

/-- Substring test, used to state what a rendered document mentions. -/
def containsStr (s pat : String) : Bool :=
  hasSub s.data pat.data

/-! ### A filesystem model

Paths are component lists; a filesystem is a finite association of paths to
entries (a directory, or a file with its byte contents).  Filesystem claims
are stated extensionally through `Fs.lookup`. -/

inductive FsEntry where
  | dir
  | file (contents : String)
deriving DecidableEq, Repr

abbrev FsPath := List String

structure Fs where
  entries : List (FsPath × FsEntry)
deriving DecidableEq, Repr

/-- Association-list lookup: the first entry recorded for the path. -/
def Fs.lookupEntries : List (FsPath × FsEntry) → FsPath → Option FsEntry
  | [], _ => none
  | e :: l, p => if e.1 = p then some e.2 else Fs.lookupEntries l p

def Fs.lookup (fs : Fs) (p : FsPath) : Option FsEntry :=
  Fs.lookupEntries fs.entries p

def Fs.insert (fs : Fs) (p : FsPath) (e : FsEntry) : Fs :=
  ⟨(p, e) :: fs.entries⟩

def Fs.erase (fs : Fs) (p : FsPath) : Fs :=
  ⟨fs.entries.filter (fun e => decide (¬ e.1 = p))⟩

/-- `Path.exists()`. -/
def existsAt (fs : Fs) (p : FsPath) : Bool :=
  (fs.lookup p).isSome

/-- `Path.is_dir()`. -/
def isDirAt (fs : Fs) (p : FsPath) : Bool :=
  fs.lookup p == some FsEntry.dir

/-- The path exists and is not a directory. -/
def isFileAt (fs : Fs) (p : FsPath) : Bool :=
  match fs.lookup p with
  | some (FsEntry.file _) => true
  | _ => false

/-- Some entry lies strictly below `p`. -/
def hasDescendant (fs : Fs) (p : FsPath) : Bool :=
  fs.entries.any (fun e => decide (p.length < e.1.length ∧ e.1.take p.length = p))

/-- The nonempty initial segments of a path, shortest first; the chain of
directories `mkdir(parents=True)` needs. -/
def parentChain (p : FsPath) : List FsPath :=
  (List.range p.length).map (fun i => p.take (i + 1))

/-- String rendering of a path inside recorded messages. -/
def showPath (p : FsPath) : String :=
  String.intercalate "/" p

/-- `Path.mkdir(parents=True, exist_ok=True)` called on a non-existing
path: fails when some segment of the chain exists as a file, otherwise
creates every missing segment as a directory. -/
def mkdirParents (fs : Fs) (p : FsPath) : Option Fs :=
  if (parentChain p).any (fun q => isFileAt fs q) then none
  else some ⟨(((parentChain p).filter (fun q => !existsAt fs q)).map
    (fun q => (q, FsEntry.dir))) ++ fs.entries⟩

/-! ### `DirectoryCreator` (from `test_directory_creator_simple.py`) -/

/-- A directory passed to `create_missing_directories`: `Path.is_absolute()`
decides whether it is resolved against the project directory. -/
structure TargetDir where
  absolute : Bool
  comps : List String
deriving DecidableEq, Repr

def resolveTarget (projectDir : FsPath) (d : TargetDir) : FsPath :=
  if d.absolute then d.comps else projectDir ++ d.comps

/-- The `FileOperation` records appended to the backup manager
(timestamps are not part of the pure model). -/
structure FileOperation where
  operationType : String
  sourcePath : Option FsPath
  targetPath : FsPath
deriving DecidableEq, Repr

/-- `ensure_directory_exists`: `is_dir()` when the path exists, otherwise
the outcome of `mkdir(parents=True, exist_ok=True)`. -/
def ensure_directory_exists (fs : Fs) (p : FsPath) : Bool × Fs :=
  if existsAt fs p then (isDirAt fs p, fs)
  else
    match mkdirParents fs p with
    | some fs2 => (true, fs2)
    | none => (false, fs)

/-- The evolving state of the `create_missing_directories` loop: the
filesystem, the per-call accumulators, and the operations tracked in the
backup manager. -/
structure CreatorState where
  fs : Fs
  created : List FsPath
  failed : List (FsPath × String)
  errors : List String
  warnings : List String
  ops : List FileOperation
deriving Repr

/-- One iteration of the `for missing_dir in missing_dirs` loop. -/
def createStep (projectDir : FsPath) (st : CreatorState) (d : TargetDir) :
    CreatorState :=
  let target := resolveTarget projectDir d
  if existsAt st.fs target then
    if isDirAt st.fs target then
      { st with warnings :=
          st.warnings ++ ["Directory already exists: " ++ showPath target] }
    else
      let msg := "Path exists but is not a directory: " ++ showPath target
      { st with errors := st.errors ++ [msg],
                failed := st.failed ++ [(target, msg)] }
  else
    match ensure_directory_exists st.fs target with
    | (true, fs2) =>
      { st with fs := fs2, created := st.created ++ [target],
                ops := st.ops ++ [{ operationType := "CREATE",
                                    sourcePath := none, targetPath := target }] }
    | (false, fs2) =>
      let msg := "Failed to create directory: " ++ showPath target
      { st with fs := fs2, errors := st.errors ++ [msg],
                failed := st.failed ++ [(target, msg)] }

/-- The `CreationResult` returned by `create_missing_directories`. -/
structure CreationResult where
  created_directories : List FsPath
  failed_directories : List (FsPath × String)
  success : Bool
  errors : List String
  warnings : List String
deriving DecidableEq, Repr

/-- `create_missing_directories`: raises when the project root does not
exist, otherwise processes every target and returns the result together
with the final filesystem and the tracked backup operations. -/
def create_missing_directories (fs : Fs) (projectDir : FsPath)
    (missingDirs : List TargetDir) :
    Except String (CreationResult × Fs × List FileOperation) :=
  if !existsAt fs projectDir then
    Except.error ("Project directory does not exist: " ++ showPath projectDir)
  else
    let st := missingDirs.foldl (createStep projectDir)
      { fs := fs, created := [], failed := [], errors := [], warnings := [], ops := [] }
    Except.ok ({ created_directories := st.created,
                 failed_directories := st.failed,
                 success := st.failed.isEmpty,
                 errors := st.errors,
                 warnings := st.warnings }, st.fs, st.ops)

/-! ### Backup / Undo manager and Reorganizer

The reorganizer and backup-manager modules are not part of the source tree
(only the CLI dispatcher and the end-to-end tests are), so they are modelled
from the specification, over the same filesystem model. -/

/-- The atomic operations of a reorganization run. -/
inductive FileOp where
  | move (source target : FsPath)
  | create (target : FsPath)
deriving DecidableEq, Repr

/-- Modelled from the spec: one mutating filesystem operation of the
Reorganizer (the mover and the directory creation stage); a MOVE relocates a
file's bytes to a fresh target path, a CREATE makes a fresh directory.
Missing from src: the `organize_cli` reorganizer implementation. -/
def applyOp (fs : Fs) : FileOp → Option Fs
  | FileOp.move src tgt =>
    match fs.lookup src with
    | some (FsEntry.file c) =>
      if existsAt fs tgt then none
      else some ((fs.erase src).insert tgt (FsEntry.file c))
    | _ => none
  | FileOp.create tgt =>
    if existsAt fs tgt || hasDescendant fs tgt then none
    else some (fs.insert tgt FsEntry.dir)

/-- Modelled from the spec: the reversal of one logged operation inside
`undo_session` — "MOVE → move back to source; CREATE → remove the created
directory if now empty", checking current state before acting.  Missing
from src: the backup-manager implementation. -/
def undoOp (fs : Fs) : FileOp → Option Fs
  | FileOp.move src tgt =>
    match fs.lookup tgt with
    | some (FsEntry.file c) =>
      if existsAt fs src then none
      else some ((fs.erase tgt).insert src (FsEntry.file c))
    | _ => none
  | FileOp.create tgt =>
    if isDirAt fs tgt && !hasDescendant fs tgt then some (fs.erase tgt)
    else none

/-- The state of an executing run: current filesystem, the session's
operation log (appended before/with each mutation), collected errors. -/
structure RunState where
  fs : Fs
  log : List FileOp
  errors : List String
deriving Repr

/-- Modelled from the spec: the executor applies each planned operation in
turn; an inapplicable operation is recorded as an error and skipped (a
per-file failure never aborts the run), an applied operation is appended to
the session log. -/
def runPlanStep (st : RunState) (op : FileOp) : RunState :=
  match applyOp st.fs op with
  | some fs2 => { st with fs := fs2, log := st.log ++ [op] }
  | none => { st with errors := st.errors ++ ["operation failed"] }

def runPlan (fs : Fs) (plan : List FileOp) : RunState :=
  plan.foldl runPlanStep { fs := fs, log := [], errors := [] }

/-- Modelled from the spec: a `BackupSession` descriptor — its id and the
ordered operation log.  (Backed-up bytes are carried by the MOVE operations
of this model.) -/
structure BackupSession where
  sessionId : String
  operationLog : List FileOp
deriving Repr

/-- The filesystem reached by an undo together with the per-operation
reports for reversals whose target was missing or modified. -/
structure UndoState where
  fs : Fs
  reports : List String
deriving Repr

def undoStep (st : UndoState) (op : FileOp) : UndoState :=
  match undoOp st.fs op with
  | some fs2 => { st with fs := fs2 }
  | none =>
    { st with reports := st.reports ++ ["reversal target missing or modified"] }

/-- Modelled from the spec: `undo_session` replays the session's operation
log in reverse order, reversing each operation and reporting, not throwing,
for unexpectedly missing or modified reversal targets. -/
def undo_session (fs : Fs) (session : BackupSession) : UndoState :=
  session.operationLog.reverse.foldl undoStep { fs := fs, reports := [] }

/-- The configuration fields of `reorganize_repository` this model needs. -/
structure ReorgConfig where
  backupEnabled : Bool
  dryRun : Bool
deriving DecidableEq, Repr

structure ReorgOutcome where
  fs : Fs
  session : Option BackupSession
  errors : List String
deriving Repr

/-- Modelled from the spec: `reorganize_repository` — under `dry_run` it
computes the plan but performs zero filesystem mutation and creates no
backup session; otherwise it executes the plan, and when `backup_enabled`
records every performed operation in a fresh session.  Missing from src:
the `organize_cli` reorganizer implementation. -/
def reorganize_repository (fs : Fs) (config : ReorgConfig)
    (plan : List FileOp) : ReorgOutcome :=
  if config.dryRun then { fs := fs, session := none, errors := [] }
  else
    let st := runPlan fs plan
    { fs := st.fs,
      session := if config.backupEnabled then
          some { sessionId := "session", operationLog := st.log }
        else none,
      errors := st.errors }

/-! ### Classifier score combination (modelled from the spec) -/

/-- The four independent signals, in priority order. -/
inductive SignalKind where
  | filename
  | contentKeyword
  | sentencePattern
  | directoryContext
deriving DecidableEq, Repr

/-- The priority rank of a signal: filename highest (0). -/
def signalRank : SignalKind → Nat
  | SignalKind.filename => 0
  | SignalKind.contentKeyword => 1
  | SignalKind.sentencePattern => 2
  | SignalKind.directoryContext => 3

/-- One per-signal score `(category, weight, reason-kind)`. -/
structure Signal where
  category : String
  weight : ℚ
  kind : SignalKind
deriving DecidableEq, Repr

/-- The summed weight of a category across all signals. -/
def totalScore (signals : List Signal) (c : String) : ℚ :=
  ((signals.filter (fun s => decide (s.category = c))).map Signal.weight).sum

/-- The rank of the highest-priority signal that favored the category
(contributed positive weight to it); 4 when no signal favored it. -/
def bestRank (signals : List Signal) (c : String) : Nat :=
  ((signals.filter (fun s => decide (s.category = c) && decide (0 < s.weight))).map
    (fun s => signalRank s.kind)).foldr min 4

/-- Modelled from the spec: `c` beats `d` when its total summed score is
strictly larger, or the totals are equal and a strictly higher-priority
signal favored `c`.  Missing from src: the `simple_classifier`
implementation of `combine_classification_scores`. -/
def betterCategory (signals : List Signal) (c d : String) : Bool :=
  decide (totalScore signals d < totalScore signals c) ||
  (decide (totalScore signals c = totalScore signals d) &&
    decide (bestRank signals c < bestRank signals d))

/-- Modelled from the spec: the combination rule picks the category with the
maximum total summed score, ties broken by signal priority (filename, then
content keywords, then sentence pattern, then directory context); a later
category displaces the current winner only when it strictly beats it. -/
def combineScores (signals : List Signal) (categories : List String) :
    Option String :=
  categories.foldl
    (fun acc c =>
      match acc with
      | none => some c
      | some b => if betterCategory signals c b then some c else some b)
    none

/-! ### Structure validator score (modelled from the spec) -/

/-- Modelled from the spec: `generate_compliance_score` computes
`existing / (existing + missing)`, defined as 1.0 when both counts are zero;
the first argument is the expected total `existing + missing`, the second
the found count, matching the calls asserted by
`test_structure_validator_simple.py`.  Missing from src: the
`organize/structure_validator.py` implementation. -/
def generate_compliance_score (expected found : ℕ) : ℚ :=
  if expected = 0 then 1 else (found : ℚ) / (expected : ℚ)

/-! ### Derived definitions used by the statements and proofs -/

/-- Extensional equality of filesystems. -/
def FsEquiv (fs fs2 : Fs) : Prop :=
  ∀ p, fs.lookup p = fs2.lookup p

/-- Applying a list of operations in order, all of them succeeding. -/
def applyOps (fs : Fs) : List FileOp → Option Fs
  | [] => some fs
  | op :: ops =>
    match applyOp fs op with
    | some fs2 => applyOps fs2 ops
    | none => none

/-- The filesystem component of an undo replay (skipping, as `undoStep`
does, any reversal whose target is missing or modified). -/
def undoFs (fs : Fs) (ops : List FileOp) : Fs :=
  ops.foldl (fun g op =>
    match undoOp g op with
    | some g2 => g2
    | none => g) fs

/-- The initial state of the `create_missing_directories` loop. -/
def creatorInit (fs : Fs) : CreatorState :=
  { fs := fs, created := [], failed := [], errors := [], warnings := [], ops := [] }

/-- The `create_missing_directories` loop run from a fresh state. -/
def runCreate (projectDir : FsPath) (fs : Fs) (l : List TargetDir) : CreatorState :=
  l.foldl (createStep projectDir) (creatorInit fs)

/-- The token-set Jaccard similarity named by the specification, written
from the spec's words for comparison with `are_similar`: the ratio of the
intersection and union cardinalities of the normalized texts' word sets
(`mkRat inter uni`, i.e. `inter / uni`, and `0` when the union is empty). -/
def specJaccard (t1 t2 : String) : ℚ :=
  let w1 := (pyWords (normalize_text t1)).dedup
  let w2 := (pyWords (normalize_text t2)).dedup
  mkRat (setInterLen w1 w2) (setUnionLen w1 w2)

/-- The relation `dedupLoop` establishes between an earlier-kept requirement
`a` and a later-kept requirement `b`: distinct normalized texts and a
similarity check that failed. -/
def dedupKeepRel (a b : ExtractedRequirement) : Prop :=
  normalize_text b.text ≠ normalize_text a.text ∧
  are_similar b.text a.text (mkRat 8 10) = false

/-! ## Basic filesystem lemmas -/

theorem Fs.lookup_insert (fs : Fs) (p q : FsPath) (e : FsEntry) :
    (fs.insert p e).lookup q = if q = p then some e else fs.lookup q := by
  by_cases h : q = p
  · simp [Fs.insert, Fs.lookup, Fs.lookupEntries, h]
  · have h2 : ¬ p = q := fun hh => h hh.symm
    simp [Fs.insert, Fs.lookup, Fs.lookupEntries, h, h2]

theorem Fs.lookup_erase (fs : Fs) (p q : FsPath) :
    (fs.erase p).lookup q = if q = p then none else fs.lookup q := by
  obtain ⟨l⟩ := fs
  induction l with
  | nil => simp [Fs.erase, Fs.lookup, Fs.lookupEntries]
  | cons a l ih =>
    by_cases hap : a.1 = p
    · by_cases hqp : q = p
      · simpa [Fs.erase, Fs.lookup, Fs.lookupEntries, hap, hqp] using ih
      · have hne : ¬ a.1 = q := fun h => hqp (by rw [← h, hap])
        have hne2 : ¬ p = q := fun h => hqp h.symm
        simpa [Fs.erase, Fs.lookup, Fs.lookupEntries, hap, hqp, hne, hne2] using ih
    · by_cases haq : a.1 = q
      · have hqp : ¬ q = p := fun h => hap (by rw [haq, h])
        simp [Fs.erase, Fs.lookup, Fs.lookupEntries, hap, haq, hqp]
      · simpa [Fs.erase, Fs.lookup, Fs.lookupEntries, hap, haq] using ih

theorem Fs.lookup_isSome_of_mem (fs : Fs) (p : FsPath) (e : FsEntry)
    (h : (p, e) ∈ fs.entries) : (fs.lookup p).isSome = true := by
  obtain ⟨l⟩ := fs
  induction l with
  | nil => simp at h
  | cons a l ih =>
    rcases List.mem_cons.mp h with h1 | h1
    · simp [Fs.lookup, Fs.lookupEntries, ← h1]
    · by_cases ha : a.1 = p
      · simp [Fs.lookup, Fs.lookupEntries, ha]
      · simpa [Fs.lookup, Fs.lookupEntries, ha] using ih h1

theorem Fs.exists_mem_of_lookup_isSome (fs : Fs) (p : FsPath)
    (h : (fs.lookup p).isSome = true) : ∃ e, (p, e) ∈ fs.entries := by
  obtain ⟨l⟩ := fs
  induction l with
  | nil => simp [Fs.lookup, Fs.lookupEntries] at h
  | cons a l ih =>
    by_cases ha : a.1 = p
    · exact ⟨a.2, by simp [List.mem_cons]; left; rw [← ha]⟩
    · simp only [Fs.lookup, Fs.lookupEntries, ha, if_false] at h
      obtain ⟨e, he⟩ := ih h
      exact ⟨e, List.mem_cons.mpr (Or.inr he)⟩

/-- `hasDescendant` only depends on the filesystem through `lookup`. -/
theorem hasDescendant_iff (fs : Fs) (p : FsPath) :
    hasDescendant fs p = true ↔
      ∃ q, (fs.lookup q).isSome = true ∧ p.length < q.length ∧
        q.take p.length = p := by
  constructor
  · intro h
    obtain ⟨e, hmem, he⟩ := List.any_eq_true.mp h
    simp only [decide_eq_true_eq] at he
    exact ⟨e.1, Fs.lookup_isSome_of_mem fs e.1 e.2 hmem, he.1, he.2⟩
  · rintro ⟨q, hq, hlen, htake⟩
    obtain ⟨e, hmem⟩ := Fs.exists_mem_of_lookup_isSome fs q hq
    exact List.any_eq_true.mpr ⟨(q, e), hmem, by simp [hlen, htake]⟩

theorem FsEquiv.refl (fs : Fs) : FsEquiv fs fs := fun _ => rfl

theorem FsEquiv.trans {a b c : Fs} (h1 : FsEquiv a b) (h2 : FsEquiv b c) :
    FsEquiv a c := fun p => (h1 p).trans (h2 p)

theorem hasDescendant_congr {fs fs2 : Fs} (h : FsEquiv fs fs2) (p : FsPath) :
    hasDescendant fs p = hasDescendant fs2 p := by
  by_cases hd : hasDescendant fs p = true
  · have := (hasDescendant_iff fs p).mp hd
    rw [hd]
    exact ((hasDescendant_iff fs2 p).mpr (by
      obtain ⟨q, hq, h1, h2⟩ := this
      exact ⟨q, by rw [← h q]; exact hq, h1, h2⟩)).symm
  · have hd2 : ¬ hasDescendant fs2 p = true := by
      intro hds
      exact hd ((hasDescendant_iff fs p).mpr (by
        obtain ⟨q, hq, h1, h2⟩ := (hasDescendant_iff fs2 p).mp hds
        exact ⟨q, by rw [h q]; exact hq, h1, h2⟩))
    simp only [Bool.not_eq_true] at hd hd2
    rw [hd, hd2]

/-! ## C9: compliance score -/

/-- C9: `generate_compliance_score` computes existing/(existing+missing):
the score of (0,0) is 1.0, the score of (n,n) is 1.0 for every n, the score
of (10,7) is 0.7, and the score is 1.0 exactly when nothing expected is
missing. -/
theorem generate_compliance_score_spec :
    generate_compliance_score 0 0 = 1 ∧
    (∀ n : ℕ, generate_compliance_score n n = 1) ∧
    generate_compliance_score 10 7 = 7/10 ∧
    (∀ existing missing : ℕ,
      (generate_compliance_score (existing + missing) existing = 1 ↔
        missing = 0)) := by
  refine ⟨by norm_num [generate_compliance_score], fun n => ?_, by
    norm_num [generate_compliance_score], fun existing missing => ?_⟩
  · rcases Nat.eq_zero_or_pos n with h | h
    · subst h; norm_num [generate_compliance_score]
    · have : (n : ℚ) ≠ 0 := Nat.cast_ne_zero.mpr (Nat.pos_iff_ne_zero.mp h)
      simp [generate_compliance_score, Nat.pos_iff_ne_zero.mp h, div_self this]
  · rcases Nat.eq_zero_or_pos (existing + missing) with h | h
    · have he : existing = 0 := Nat.eq_zero_of_add_eq_zero_right h
      have hm : missing = 0 := Nat.eq_zero_of_add_eq_zero_left h
      subst he; subst hm
      norm_num [generate_compliance_score]
    · have hne : existing + missing ≠ 0 := Nat.pos_iff_ne_zero.mp h
      have hq : ((existing + missing : ℕ) : ℚ) ≠ 0 := Nat.cast_ne_zero.mpr hne
      constructor
      · intro heq
        simp only [generate_compliance_score, hne, if_false] at heq
        have h2 : (existing : ℚ) = ((existing + missing : ℕ) : ℚ) :=
          (div_eq_one_iff_eq hq).mp heq
        have h3 : existing = existing + missing := Nat.cast_inj.mp h2
        omega
      · intro hm
        subst hm
        have hne2 : existing ≠ 0 := by omega
        have hq2 : (existing : ℚ) ≠ 0 := Nat.cast_ne_zero.mpr hne2
        simp [generate_compliance_score, hne, div_self hq2]

/-! ## C2: dry run mutates nothing -/

/-- C2: with `dry_run = True`, `reorganize_repository` performs zero
filesystem mutation — the resulting tree is the input tree — and creates no
backup session. -/
theorem reorganize_dry_run_no_mutation (fs : Fs) (config : ReorgConfig)
    (plan : List FileOp) (hdry : config.dryRun = true) :
    (reorganize_repository fs config plan).fs = fs ∧
    (reorganize_repository fs config plan).session = none := by
  simp [reorganize_repository, hdry]

/-! ## C1: backup round trip -/

theorem existsAt_eq_false_iff (fs : Fs) (p : FsPath) :
    existsAt fs p = false ↔ fs.lookup p = none := by
  cases h : fs.lookup p <;> simp [existsAt, h]

/-- Reversing one just-applied operation restores the filesystem, up to
lookup-extensional equality. -/
theorem undoOp_applyOp {fs fs1 : Fs} {op : FileOp}
    (h : applyOp fs op = some fs1) :
    ∃ g, undoOp fs1 op = some g ∧ FsEquiv g fs := by
  cases op with
  | move src tgt =>
    simp only [applyOp] at h
    cases hsrc : fs.lookup src with
    | none => rw [hsrc] at h; simp at h
    | some e =>
      cases e with
      | dir => rw [hsrc] at h; simp at h
      | file c =>
        rw [hsrc] at h
        cases htgt : existsAt fs tgt with
        | true => rw [htgt] at h; simp at h
        | false =>
          rw [htgt] at h
          simp only [Bool.false_eq_true, if_false, Option.some.injEq] at h
          have htgt2 : fs.lookup tgt = none := (existsAt_eq_false_iff fs tgt).mp htgt
          have hne : ¬ src = tgt := by
            intro hh
            rw [hh, htgt2] at hsrc
            exact Option.noConfusion hsrc
          have h1 : fs1.lookup tgt = some (FsEntry.file c) := by
            rw [← h, Fs.lookup_insert]; simp
          have h2 : fs1.lookup src = none := by
            rw [← h, Fs.lookup_insert, Fs.lookup_erase]
            simp [hne]
          refine ⟨(fs1.erase tgt).insert src (FsEntry.file c), ?_, ?_⟩
          · simp only [undoOp, h1, existsAt, h2, Option.isSome_none]
            rfl
          · intro p
            rw [Fs.lookup_insert]
            by_cases hp : p = src
            · rw [if_pos hp, hp, hsrc]
            · rw [if_neg hp, Fs.lookup_erase]
              by_cases hpt : p = tgt
              · rw [if_pos hpt, hpt, htgt2]
              · rw [if_neg hpt, ← h, Fs.lookup_insert, if_neg hpt,
                  Fs.lookup_erase, if_neg hp]
  | create tgt =>
    simp only [applyOp] at h
    cases hc : existsAt fs tgt || hasDescendant fs tgt with
    | true => rw [hc] at h; simp at h
    | false =>
      rw [hc] at h
      simp only [Bool.false_eq_true, if_false, Option.some.injEq] at h
      have hex : existsAt fs tgt = false := by
        cases hx : existsAt fs tgt with
        | false => rfl
        | true => rw [hx] at hc; simp at hc
      have hdesc : hasDescendant fs tgt = false := by
        cases hx : hasDescendant fs tgt with
        | false => rfl
        | true => rw [hx] at hc; simp at hc
      have htgt2 : fs.lookup tgt = none := (existsAt_eq_false_iff fs tgt).mp hex
      have h1 : fs1.lookup tgt = some FsEntry.dir := by
        rw [← h, Fs.lookup_insert]; simp
      have h2 : hasDescendant fs1 tgt = false := by
        rw [← h]
        simp only [hasDescendant, Fs.insert, List.any_cons]
        simp only [hasDescendant] at hdesc
        rw [hdesc]
        simp
      refine ⟨fs1.erase tgt, ?_, ?_⟩
      · simp [undoOp, isDirAt, h1, h2]
      · intro p
        rw [Fs.lookup_erase]
        by_cases hp : p = tgt
        · rw [if_pos hp, hp, htgt2]
        · rw [if_neg hp, ← h, Fs.lookup_insert, if_neg hp]

/-- `undoOp` is invariant under lookup-extensional equality. -/
theorem undoOp_congr {a b : Fs} (h : FsEquiv a b) (op : FileOp) :
    (undoOp a op = none ∧ undoOp b op = none) ∨
    ∃ ga gb, undoOp a op = some ga ∧ undoOp b op = some gb ∧ FsEquiv ga gb := by
  cases op with
  | move src tgt =>
    simp only [undoOp]
    rw [h tgt]
    cases htgt : b.lookup tgt with
    | none => exact Or.inl ⟨rfl, rfl⟩
    | some e =>
      cases e with
      | dir => exact Or.inl ⟨rfl, rfl⟩
      | file c =>
        have hsrc : existsAt a src = existsAt b src := by
          simp only [existsAt, h src]
        rw [hsrc]
        cases hb : existsAt b src with
        | true => simp
        | false =>
          simp only [Bool.false_eq_true, if_false]
          refine Or.inr ⟨_, _, rfl, rfl, ?_⟩
          intro p
          rw [Fs.lookup_insert, Fs.lookup_insert]
          by_cases hp : p = src
          · simp [hp]
          · rw [if_neg hp, if_neg hp, Fs.lookup_erase, Fs.lookup_erase]
            by_cases hpt : p = tgt
            · simp [hpt]
            · rw [if_neg hpt, if_neg hpt, h p]
  | create tgt =>
    simp only [undoOp]
    have hdir : isDirAt a tgt = isDirAt b tgt := by
      simp only [isDirAt, h tgt]
    rw [hdir, hasDescendant_congr h tgt]
    cases hc : isDirAt b tgt && !hasDescendant b tgt with
    | false => exact Or.inl ⟨rfl, rfl⟩
    | true =>
      refine Or.inr ⟨_, _, rfl, rfl, ?_⟩
      intro p
      rw [Fs.lookup_erase, Fs.lookup_erase]
      by_cases hp : p = tgt
      · simp [hp]
      · rw [if_neg hp, if_neg hp, h p]

theorem undoFs_append (fs : Fs) (l1 l2 : List FileOp) :
    undoFs fs (l1 ++ l2) = undoFs (undoFs fs l1) l2 := by
  simp [undoFs, List.foldl_append]

theorem undoFs_single (g : Fs) (op : FileOp) :
    undoFs g [op] = match undoOp g op with
      | some g2 => g2
      | none => g := rfl

/-- Undoing, in reverse order, a list of operations that applied
successfully restores the original filesystem extensionally — from any
state extensionally equal to the final one. -/
theorem undoFs_applyOps : ∀ (ops : List FileOp) (fs fs1 : Fs),
    applyOps fs ops = some fs1 → ∀ fsu, FsEquiv fsu fs1 →
    FsEquiv (undoFs fsu ops.reverse) fs := by
  intro ops
  induction ops with
  | nil =>
    intro fs fs1 h fsu hequiv
    simp only [applyOps, Option.some.injEq] at h
    subst h
    simpa [undoFs] using hequiv
  | cons op ops ih =>
    intro fs fs1 h fsu hequiv
    simp only [applyOps] at h
    cases happ : applyOp fs op with
    | none => rw [happ] at h; simp at h
    | some fs2 =>
      rw [happ] at h
      have hmid : FsEquiv (undoFs fsu ops.reverse) fs2 := ih fs2 fs1 h fsu hequiv
      obtain ⟨g, hg, hgfs⟩ := undoOp_applyOp happ
      rw [List.reverse_cons, undoFs_append]
      rcases undoOp_congr hmid op with ⟨hnone, hnone2⟩ | ⟨ga, gb, ha, hb, hab⟩
      · rw [hg] at hnone2; exact Option.noConfusion hnone2
      · have hgb : gb = g := by rw [hg] at hb; exact (Option.some.inj hb).symm
        rw [undoFs_single, ha]
        exact FsEquiv.trans (hgb ▸ hab) hgfs

/-- The executor's log records exactly the operations it performed, in
order, and applying that log from the starting filesystem reproduces the
final filesystem. -/
theorem runPlan_log : ∀ (plan : List FileOp) (fs : Fs) (log0 : List FileOp)
    (errs0 : List String),
    ∃ newlog,
      (plan.foldl runPlanStep { fs := fs, log := log0, errors := errs0 }).log
        = log0 ++ newlog ∧
      applyOps fs newlog =
        some (plan.foldl runPlanStep { fs := fs, log := log0, errors := errs0 }).fs := by
  intro plan
  induction plan with
  | nil => intro fs log0 errs0; exact ⟨[], by simp, by simp [applyOps]⟩
  | cons op plan ih =>
    intro fs log0 errs0
    cases happ : applyOp fs op with
    | some fs2 =>
      obtain ⟨nl, hlog, happly⟩ := ih fs2 (log0 ++ [op]) errs0
      refine ⟨op :: nl, ?_, ?_⟩
      · simp only [List.foldl_cons, runPlanStep, happ]
        rw [hlog]
        simp
      · simp only [List.foldl_cons, runPlanStep, happ]
        simp only [applyOps, happ]
        exact happly
    | none =>
      obtain ⟨nl, hlog, happly⟩ :=
        ih fs log0 (errs0 ++ ["operation failed"])
      refine ⟨nl, ?_, ?_⟩
      · simp only [List.foldl_cons, runPlanStep, happ]
        exact hlog
      · simp only [List.foldl_cons, runPlanStep, happ]
        exact happly

theorem undo_session_fs_eq : ∀ (l : List FileOp) (fs : Fs) (r : List String),
    (l.foldl undoStep { fs := fs, reports := r }).fs = undoFs fs l := by
  intro l
  induction l with
  | nil => intro fs r; simp [undoFs]
  | cons op l ih =>
    intro fs r
    simp only [List.foldl_cons, undoStep, undoFs, List.foldl_cons]
    cases hu : undoOp fs op with
    | some g => simpa [hu, undoFs] using ih g r
    | none => simpa [hu, undoFs] using ih fs (r ++ ["reversal target missing or modified"])

/-- C1: for every run of `reorganize_repository` with `backup_enabled =
True` (and not a dry run), undoing the created session — replaying its
recorded operation log in reverse order — restores the project tree
exactly: every path holds the same entry (directory, or file with the same
bytes) as before the run. -/
theorem reorganize_backup_roundtrip (fs : Fs) (config : ReorgConfig)
    (plan : List FileOp) (hb : config.backupEnabled = true)
    (hd : config.dryRun = false) (p : FsPath) :
    (reorganize_repository fs config plan).session.isSome = true ∧
    ((undo_session (reorganize_repository fs config plan).fs
        ((reorganize_repository fs config plan).session.getD
          { sessionId := "", operationLog := [] })).fs).lookup p
      = fs.lookup p := by
  have hout : reorganize_repository fs config plan =
      { fs := (runPlan fs plan).fs,
        session := some { sessionId := "session",
                          operationLog := (runPlan fs plan).log },
        errors := (runPlan fs plan).errors } := by
    simp [reorganize_repository, hd, hb]
  rw [hout]
  refine ⟨rfl, ?_⟩
  obtain ⟨newlog, hlog, happly⟩ := runPlan_log plan fs [] []
  have hlog2 : (runPlan fs plan).log = newlog := by
    simpa [runPlan] using hlog
  have hfs : applyOps fs newlog = some (runPlan fs plan).fs := by
    simpa [runPlan] using happly
  have hrt := undoFs_applyOps newlog fs (runPlan fs plan).fs hfs
    (runPlan fs plan).fs (FsEquiv.refl _)
  simp only [Option.getD_some, undo_session, hlog2]
  rw [undo_session_fs_eq]
  exact hrt p

/-- Witness for C1: a concrete run creating a directory and moving a file
into it; after undo the moved file is back at its source. -/
theorem reorganize_backup_roundtrip_witness :
    (reorganize_repository ⟨[(["proj"], FsEntry.dir), (["proj", "a.md"], FsEntry.file "A")]⟩
      ⟨true, false⟩
      [FileOp.create ["proj", "specs"],
       FileOp.move ["proj", "a.md"] ["proj", "specs", "a.md"]]).session.isSome = true ∧
    ((undo_session
        (reorganize_repository ⟨[(["proj"], FsEntry.dir), (["proj", "a.md"], FsEntry.file "A")]⟩
          ⟨true, false⟩
          [FileOp.create ["proj", "specs"],
           FileOp.move ["proj", "a.md"] ["proj", "specs", "a.md"]]).fs
        ((reorganize_repository ⟨[(["proj"], FsEntry.dir), (["proj", "a.md"], FsEntry.file "A")]⟩
          ⟨true, false⟩
          [FileOp.create ["proj", "specs"],
           FileOp.move ["proj", "a.md"] ["proj", "specs", "a.md"]]).session.getD
          { sessionId := "", operationLog := [] })).fs).lookup ["proj", "a.md"]
      = Fs.lookup ⟨[(["proj"], FsEntry.dir), (["proj", "a.md"], FsEntry.file "A")]⟩ ["proj", "a.md"] :=
  reorganize_backup_roundtrip
    ⟨[(["proj"], FsEntry.dir), (["proj", "a.md"], FsEntry.file "A")]⟩
    ⟨true, false⟩
    [FileOp.create ["proj", "specs"],
     FileOp.move ["proj", "a.md"] ["proj", "specs", "a.md"]]
    rfl rfl ["proj", "a.md"]

/-- Witness for C2 at a concrete project and plan. -/
theorem reorganize_dry_run_no_mutation_witness :
    (reorganize_repository ⟨[(["proj"], FsEntry.dir)]⟩ ⟨true, true⟩
      [FileOp.create ["proj", "specs"]]).fs = ⟨[(["proj"], FsEntry.dir)]⟩ ∧
    (reorganize_repository ⟨[(["proj"], FsEntry.dir)]⟩ ⟨true, true⟩
      [FileOp.create ["proj", "specs"]]).session = none :=
  reorganize_dry_run_no_mutation ⟨[(["proj"], FsEntry.dir)]⟩ ⟨true, true⟩
    [FileOp.create ["proj", "specs"]] rfl

/-! ## C8: classifier tie-break by signal priority -/

theorem betterCategory_iff (signals : List Signal) (c d : String) :
    betterCategory signals c d = true ↔
      (totalScore signals d < totalScore signals c ∨
        (totalScore signals c = totalScore signals d ∧
          bestRank signals c < bestRank signals d)) := by
  simp [betterCategory]

theorem betterCategory_irrefl (signals : List Signal) (c : String) :
    betterCategory signals c c = false := by
  rw [Bool.eq_false_iff]
  intro h
  rcases (betterCategory_iff signals c c).mp h with h1 | ⟨_, h2⟩
  · exact lt_irrefl _ h1
  · exact lt_irrefl _ h2

theorem betterCategory_trans (signals : List Signal) {x c b : String}
    (h1 : betterCategory signals x c = true)
    (h2 : betterCategory signals c b = true) :
    betterCategory signals x b = true := by
  rw [betterCategory_iff] at h1 h2 ⊢
  rcases h1 with h1 | ⟨h1e, h1r⟩ <;> rcases h2 with h2 | ⟨h2e, h2r⟩
  · exact Or.inl (lt_trans h2 h1)
  · exact Or.inl (h2e ▸ h1)
  · exact Or.inl (h1e ▸ h2)
  · exact Or.inr ⟨h1e.trans h2e, lt_trans h1r h2r⟩

/-- The fold of `combineScores` keeps a champion no listed category
strictly beats. -/
theorem combineScores_fold (signals : List Signal) :
    ∀ (cats : List String) (b : String),
    ∃ w, cats.foldl
        (fun acc c =>
          match acc with
          | none => some c
          | some b2 => if betterCategory signals c b2 then some c else some b2)
        (some b) = some w ∧
      (w = b ∨ w ∈ cats) ∧
      (w = b ∨ betterCategory signals w b = true) ∧
      betterCategory signals b w = false ∧
      ∀ c ∈ cats, betterCategory signals c w = false := by
  intro cats
  induction cats with
  | nil =>
    intro b
    exact ⟨b, rfl, Or.inl rfl, Or.inl rfl, betterCategory_irrefl signals b, by simp⟩
  | cons a cats ih =>
    intro b
    by_cases hab : betterCategory signals a b = true
    · obtain ⟨w, hw, hmem, hchain, hnotb, hall⟩ := ih a
      refine ⟨w, by simpa [hab] using hw, ?_, ?_, ?_, ?_⟩
      · rcases hmem with h | h
        · exact Or.inr (List.mem_cons.mpr (Or.inl h))
        · exact Or.inr (List.mem_cons.mpr (Or.inr h))
      · rcases hchain with h | h
        · exact Or.inr (h ▸ hab)
        · exact Or.inr (betterCategory_trans signals h hab)
      · rw [Bool.eq_false_iff]
        intro hbw
        rcases hchain with h | h
        · subst h
          have := betterCategory_trans signals hbw hab
          rw [betterCategory_irrefl] at this
          exact Bool.noConfusion this
        · have hba := betterCategory_trans signals hbw h
          have := betterCategory_trans signals hab hba
          rw [betterCategory_irrefl] at this
          exact Bool.noConfusion this
      · intro c hc
        rcases List.mem_cons.mp hc with h | h
        · subst h
          rcases hchain with h2 | h2
          · exact h2 ▸ hnotb
          · rw [Bool.eq_false_iff]
            intro hcw
            have := betterCategory_trans signals hcw h2
            rw [betterCategory_irrefl] at this
            exact Bool.noConfusion this
        · exact hall c h
    · have hab2 : betterCategory signals a b = false := Bool.eq_false_iff.mpr hab
      obtain ⟨w, hw, hmem, hchain, hnotb, hall⟩ := ih b
      refine ⟨w, by simpa [hab2] using hw, ?_, hchain, hnotb, ?_⟩
      · rcases hmem with h | h
        · exact Or.inl h
        · exact Or.inr (List.mem_cons.mpr (Or.inr h))
      · intro c hc
        rcases List.mem_cons.mp hc with h | h
        · subst h
          rcases hchain with h2 | h2
          · exact h2 ▸ hab2
          · exact Bool.eq_false_iff.mpr
              (fun hcw => hab (betterCategory_trans signals hcw h2))
        · exact hall c h

/-- C8: the combination rule's winner has the maximum total summed score,
and on equal totals it is a category with the best (lowest-rank,
highest-priority) favoring signal — a tie distinguishable by signal
priority is never decided by the categories' enumeration order. -/
theorem combineScores_tie_priority (signals : List Signal)
    (categories : List String) (w : String)
    (hw : combineScores signals categories = some w) :
    w ∈ categories ∧
    (∀ c ∈ categories, totalScore signals c ≤ totalScore signals w) ∧
    (∀ c ∈ categories, totalScore signals c = totalScore signals w →
      bestRank signals w ≤ bestRank signals c) := by
  cases categories with
  | nil => simp [combineScores] at hw
  | cons a cats =>
    have hfold := combineScores_fold signals cats a
    obtain ⟨w2, hw2, hmem, hchain, hnota, hall⟩ := hfold
    have hww2 : w = w2 := by
      simp only [combineScores, List.foldl_cons] at hw
      rw [hw] at hw2
      exact Option.some.inj hw2.symm |>.symm
    subst hww2
    have hnotbetter : ∀ c ∈ a :: cats, betterCategory signals c w = false := by
      intro c hc
      rcases List.mem_cons.mp hc with h | h
      · exact h ▸ hnota
      · exact hall c h
    refine ⟨?_, ?_, ?_⟩
    · rcases hmem with h | h
      · exact h ▸ List.mem_cons_self a cats
      · exact List.mem_cons.mpr (Or.inr h)
    · intro c hc
      have hnb := hnotbetter c hc
      have h3 : ¬ (totalScore signals w < totalScore signals c ∨
          (totalScore signals c = totalScore signals w ∧
            bestRank signals c < bestRank signals w)) := by
        intro hcontra
        have h4 := (betterCategory_iff signals c w).mpr hcontra
        rw [hnb] at h4
        exact Bool.noConfusion h4
      push_neg at h3
      exact h3.1
    · intro c hc heq
      have hnb := hnotbetter c hc
      have h3 : ¬ (totalScore signals w < totalScore signals c ∨
          (totalScore signals c = totalScore signals w ∧
            bestRank signals c < bestRank signals w)) := by
        intro hcontra
        have h4 := (betterCategory_iff signals c w).mpr hcontra
        rw [hnb] at h4
        exact Bool.noConfusion h4
      push_neg at h3
      exact h3.2 heq

/-- The concrete tie used as the C8 witness: both categories reach total
0.3, and only the signal kinds distinguish them. -/
theorem tieSignals_total_features :
    totalScore
      [{ category := "features", weight := mkRat 3 10, kind := SignalKind.sentencePattern },
       { category := "fixes", weight := mkRat 3 10, kind := SignalKind.filename }]
      "features" = mkRat 3 10 := by
  simp [totalScore]

theorem tieSignals_total_fixes :
    totalScore
      [{ category := "features", weight := mkRat 3 10, kind := SignalKind.sentencePattern },
       { category := "fixes", weight := mkRat 3 10, kind := SignalKind.filename }]
      "fixes" = mkRat 3 10 := by
  simp [totalScore]

theorem tieSignals_rank_features :
    bestRank
      [{ category := "features", weight := mkRat 3 10, kind := SignalKind.sentencePattern },
       { category := "fixes", weight := mkRat 3 10, kind := SignalKind.filename }]
      "features" = 2 := by
  have hpos : (0 : ℚ) < mkRat 3 10 := by decide
  simp [bestRank, signalRank, hpos]

theorem tieSignals_rank_fixes :
    bestRank
      [{ category := "features", weight := mkRat 3 10, kind := SignalKind.sentencePattern },
       { category := "fixes", weight := mkRat 3 10, kind := SignalKind.filename }]
      "fixes" = 0 := by
  have hpos : (0 : ℚ) < mkRat 3 10 := by decide
  simp [bestRank, signalRank, hpos]

theorem tieSignals_better :
    betterCategory
      [{ category := "features", weight := mkRat 3 10, kind := SignalKind.sentencePattern },
       { category := "fixes", weight := mkRat 3 10, kind := SignalKind.filename }]
      "fixes" "features" = true := by
  rw [betterCategory_iff]
  refine Or.inr ⟨?_, ?_⟩
  · rw [tieSignals_total_fixes, tieSignals_total_features]
  · rw [tieSignals_rank_fixes, tieSignals_rank_features]
    omega

theorem tieSignals_combine :
    combineScores
      [{ category := "features", weight := mkRat 3 10, kind := SignalKind.sentencePattern },
       { category := "fixes", weight := mkRat 3 10, kind := SignalKind.filename }]
      ["features", "fixes"] = some "fixes" := by
  simp [combineScores, tieSignals_better]

/-- Witness for C8: two categories tie at total 0.3; the later-enumerated
category `fixes` wins because a filename signal (highest priority) favored
it while only a sentence-pattern signal favored `features`. -/
theorem combineScores_tie_priority_witness :
    combineScores
      [{ category := "features", weight := mkRat 3 10, kind := SignalKind.sentencePattern },
       { category := "fixes", weight := mkRat 3 10, kind := SignalKind.filename }]
      ["features", "fixes"] = some "fixes" ∧
    "fixes" ∈ ["features", "fixes"] ∧
    totalScore
      [{ category := "features", weight := mkRat 3 10, kind := SignalKind.sentencePattern },
       { category := "fixes", weight := mkRat 3 10, kind := SignalKind.filename }]
      "features" =
    totalScore
      [{ category := "features", weight := mkRat 3 10, kind := SignalKind.sentencePattern },
       { category := "fixes", weight := mkRat 3 10, kind := SignalKind.filename }]
      "fixes" ∧
    bestRank
      [{ category := "features", weight := mkRat 3 10, kind := SignalKind.sentencePattern },
       { category := "fixes", weight := mkRat 3 10, kind := SignalKind.filename }]
      "fixes" ≤
    bestRank
      [{ category := "features", weight := mkRat 3 10, kind := SignalKind.sentencePattern },
       { category := "fixes", weight := mkRat 3 10, kind := SignalKind.filename }]
      "features" :=
  ⟨tieSignals_combine, by decide,
    by rw [tieSignals_total_features, tieSignals_total_fixes],
    (combineScores_tie_priority
      [{ category := "features", weight := mkRat 3 10, kind := SignalKind.sentencePattern },
       { category := "fixes", weight := mkRat 3 10, kind := SignalKind.filename }]
      ["features", "fixes"] "fixes" tieSignals_combine).2.2 "features" (by decide)
      (by rw [tieSignals_total_features, tieSignals_total_fixes])⟩

/-! ## C5: per-line extraction discipline -/

theorem exists_append_dropWhile (p : Char → Bool) (l : List Char) :
    ∃ u, l = u ++ l.dropWhile p := by
  induction l with
  | nil => exact ⟨[], rfl⟩
  | cons a t ih =>
    by_cases h : p a
    · obtain ⟨u, hu⟩ := ih
      exact ⟨a :: u, by simp [List.dropWhile_cons, h]; exact hu⟩
    · exact ⟨[], by simp [List.dropWhile_cons, h]⟩

theorem dropWhile_head_false (p : Char → Bool) :
    ∀ (l : List Char) a t, l.dropWhile p = a :: t → p a = false := by
  intro l
  induction l with
  | nil => intro a t h; simp at h
  | cons b l ih =>
    intro a t h
    by_cases hb : p b
    · rw [List.dropWhile_cons, if_pos hb] at h
      exact ih a t h
    · rw [List.dropWhile_cons, if_neg hb] at h
      cases h
      exact Bool.eq_false_iff.mpr hb

theorem pyStripList_idem (cs : List Char) :
    pyStripList (pyStripList cs) = pyStripList cs := by
  have key : ∀ (x : List Char),
      (x.dropWhile pyIsSpace).reverse.dropWhile pyIsSpace
        = ((x.dropWhile pyIsSpace).reverse.dropWhile pyIsSpace).dropWhile pyIsSpace := by
    intro x
    cases hcase : (x.dropWhile pyIsSpace).reverse.dropWhile pyIsSpace with
    | nil => simp
    | cons d t =>
      have hd : pyIsSpace d = false :=
        dropWhile_head_false pyIsSpace (x.dropWhile pyIsSpace).reverse d t hcase
      simp [List.dropWhile_cons, hd]
  unfold pyStripList
  set A := cs.dropWhile pyIsSpace with hA
  set D := A.reverse.dropWhile pyIsSpace with hD
  have hDd : List.dropWhile pyIsSpace D = D := by
    rw [hD, hA]
    exact (key cs).symm
  have hBd : D.reverse.dropWhile pyIsSpace = D.reverse := by
    cases hcase : D.reverse with
    | nil => simp
    | cons b t =>
      obtain ⟨v, hv⟩ := exists_append_dropWhile pyIsSpace A.reverse
      have hA2 : A = D.reverse ++ v.reverse := by
        have h3 := congrArg List.reverse hv
        simpa [← hD] using h3
      rw [hcase] at hA2
      have hpb : pyIsSpace b = false := by
        apply dropWhile_head_false pyIsSpace cs b (t ++ v.reverse)
        rw [← hA]
        simpa using hA2
      simp [List.dropWhile_cons, hpb]
  rw [hBd]
  rw [List.reverse_reverse]
  rw [hDd]

theorem pyStrip_idem (s : String) : pyStrip (pyStrip s) = pyStrip s := by
  simp [pyStrip, pyStripList_idem]

/-- When a line produces a record, the record carries the line's number,
the source file, the stripped text, and the type and confidence of the
first matching family, in the EARS → general → user-story order. -/
theorem extractLine_some_fields (P : AggregatorPatterns) (f : String)
    (n : Nat) (rawLine : String) (r : ExtractedRequirement)
    (h : extractLineRequirement P f n rawLine = some r) :
    r.lineNumber = n ∧ r.sourceFile = f ∧ r.text = pyStrip rawLine ∧
    (pyStrip rawLine).isEmpty = false ∧
    ((searchAny P.earsPatterns (pyStrip rawLine) = true ∧
        r.requirementType = RequirementType.ears ∧ r.confidence = mkRat 9 10) ∨
     (searchAny P.earsPatterns (pyStrip rawLine) = false ∧
        searchAny P.generalPatterns (pyStrip rawLine) = true ∧
        r.requirementType = RequirementType.general ∧ r.confidence = mkRat 7 10) ∨
     (searchAny P.earsPatterns (pyStrip rawLine) = false ∧
        searchAny P.generalPatterns (pyStrip rawLine) = false ∧
        searchAny P.userStoryPatterns (pyStrip rawLine) = true ∧
        r.requirementType = RequirementType.userStory ∧ r.confidence = mkRat 8 10)) := by
  simp only [extractLineRequirement] at h
  cases hempty : (pyStrip rawLine).isEmpty with
  | true => rw [hempty] at h; simp at h
  | false =>
    rw [hempty] at h
    simp only [Bool.false_eq_true, if_false] at h
    unfold extractEarsRequirement extractGeneralRequirement extractUserStory at h
    cases he : searchAny P.earsPatterns (pyStrip rawLine) with
    | true =>
      rw [he] at h
      simp only [if_true] at h
      cases h
      refine ⟨rfl, rfl, pyStrip_idem rawLine, rfl, Or.inl ⟨rfl, rfl, rfl⟩⟩
    | false =>
      rw [he] at h
      simp only [Bool.false_eq_true, if_false] at h
      cases hg : searchAny P.generalPatterns (pyStrip rawLine) with
      | true =>
        rw [hg] at h
        simp only [if_true] at h
        cases h
        exact ⟨rfl, rfl, pyStrip_idem rawLine, rfl, Or.inr (Or.inl ⟨rfl, rfl, rfl, rfl⟩)⟩
      | false =>
        rw [hg] at h
        simp only [Bool.false_eq_true, if_false] at h
        cases hu : searchAny P.userStoryPatterns (pyStrip rawLine) with
        | true =>
          rw [hu] at h
          simp only [if_true, Option.some.injEq] at h
          subst h
          exact ⟨rfl, rfl, pyStrip_idem rawLine, rfl,
            Or.inr (Or.inr ⟨rfl, rfl, rfl, rfl, rfl⟩)⟩
        | false => rw [hu] at h; simp at h

/-- A blank line, or a line no family matches, contributes no record. -/
theorem extractLine_none_cases (P : AggregatorPatterns) (f : String)
    (n : Nat) (rawLine : String)
    (h : (pyStrip rawLine).isEmpty = true ∨
      (searchAny P.earsPatterns (pyStrip rawLine) = false ∧
       searchAny P.generalPatterns (pyStrip rawLine) = false ∧
       searchAny P.userStoryPatterns (pyStrip rawLine) = false)) :
    extractLineRequirement P f n rawLine = none := by
  rcases h with h | ⟨h1, h2, h3⟩
  · simp [extractLineRequirement, h]
  · simp [extractLineRequirement, extractEarsRequirement, extractGeneralRequirement,
      extractUserStory, h1, h2, h3]

/-- A nonblank line some family matches yields exactly the first matching
family's record type. -/
theorem extractLine_first_family (P : AggregatorPatterns) (f : String)
    (n : Nat) (rawLine : String) (hne : (pyStrip rawLine).isEmpty = false) :
    (searchAny P.earsPatterns (pyStrip rawLine) = true →
      ∃ r, extractLineRequirement P f n rawLine = some r ∧
        r.requirementType = RequirementType.ears) ∧
    (searchAny P.earsPatterns (pyStrip rawLine) = false →
      searchAny P.generalPatterns (pyStrip rawLine) = true →
      ∃ r, extractLineRequirement P f n rawLine = some r ∧
        r.requirementType = RequirementType.general) ∧
    (searchAny P.earsPatterns (pyStrip rawLine) = false →
      searchAny P.generalPatterns (pyStrip rawLine) = false →
      searchAny P.userStoryPatterns (pyStrip rawLine) = true →
      ∃ r, extractLineRequirement P f n rawLine = some r ∧
        r.requirementType = RequirementType.userStory) := by
  refine ⟨fun he => ?_, fun he hg => ?_, fun he hg hu => ?_⟩
  · refine ⟨ExtractedRequirement.mk (pyStrip (pyStrip rawLine)) f n
      RequirementType.ears (mkRat 9 10) (getContext (pyStrip rawLine) 50), ?_, rfl⟩
    simp [extractLineRequirement, hne, extractEarsRequirement, he]
  · refine ⟨ExtractedRequirement.mk (pyStrip (pyStrip rawLine)) f n
      RequirementType.general (mkRat 7 10) (getContext (pyStrip rawLine) 50), ?_, rfl⟩
    simp [extractLineRequirement, hne, extractEarsRequirement,
      extractGeneralRequirement, he, hg]
  · refine ⟨ExtractedRequirement.mk (pyStrip (pyStrip rawLine)) f n
      RequirementType.userStory (mkRat 8 10) (getContext (pyStrip rawLine) 50), ?_, rfl⟩
    simp [extractLineRequirement, hne, extractEarsRequirement,
      extractGeneralRequirement, extractUserStory, he, hg, hu]

theorem extractLoop_mem (P : AggregatorPatterns) (f : String) :
    ∀ (ls : List String) (n : Nat) (r : ExtractedRequirement),
      r ∈ extractLoop P f n ls →
      ∃ i, i < ls.length ∧ r.lineNumber = n + i ∧
        extractLineRequirement P f (n + i) (ls.getD i "") = some r := by
  intro ls
  induction ls with
  | nil => intro n r h; simp [extractLoop] at h
  | cons l ls ih =>
    intro n r h
    rw [extractLoop] at h
    cases hline : extractLineRequirement P f n l with
    | some r0 =>
      rw [hline] at h
      rcases List.mem_cons.mp h with h1 | h1
      · subst h1
        refine ⟨0, by simp, ?_, ?_⟩
        · have h0 := (extractLine_some_fields P f n l r hline).1
          omega
        · simpa using hline
      · obtain ⟨i, hi, hnum, hext⟩ := ih (n + 1) r h1
        exact ⟨i + 1, by simpa using hi, by omega,
          by simpa [Nat.add_assoc, Nat.add_comm 1 i] using hext⟩
    | none =>
      rw [hline] at h
      obtain ⟨i, hi, hnum, hext⟩ := ih (n + 1) r h
      exact ⟨i + 1, by simpa using hi, by omega,
        by simpa [Nat.add_assoc, Nat.add_comm 1 i] using hext⟩

theorem extractLoop_pairwise (P : AggregatorPatterns) (f : String) :
    ∀ (ls : List String) (n : Nat),
      (extractLoop P f n ls).Pairwise (fun a b => a.lineNumber < b.lineNumber) := by
  intro ls
  induction ls with
  | nil => intro n; simp [extractLoop]
  | cons l ls ih =>
    intro n
    rw [extractLoop]
    cases hline : extractLineRequirement P f n l with
    | some r0 =>
      refine List.Pairwise.cons ?_ (ih (n + 1))
      intro b hb
      obtain ⟨i, _, hnum, _⟩ := extractLoop_mem P f ls (n + 1) b hb
      have h0 : r0.lineNumber = n := (extractLine_some_fields P f n l r0 hline).1
      omega
    | none => exact ih (n + 1)

/-- C5: `extract_requirements` scans content line by line with one-based
line numbers and emits at most one record per line (the emitted records
carry strictly increasing line numbers and each comes from its own line);
per line, the pattern families are tried in the fixed order EARS, then
general, then user story, the first matching family determining the
requirement type, and a blank line or a line no family matches contributes
no record. -/
theorem extract_requirements_per_line (P : AggregatorPatterns)
    (content filePath : String) :
    (extract_requirements P content filePath).Pairwise
      (fun a b => a.lineNumber < b.lineNumber) ∧
    (∀ r ∈ extract_requirements P content filePath,
      ∃ i, i < (pyLines content).length ∧ r.lineNumber = 1 + i ∧
        extractLineRequirement P filePath (1 + i) ((pyLines content).getD i "")
          = some r) ∧
    (∀ lineNum rawLine,
      ((pyStrip rawLine).isEmpty = true ∨
        (searchAny P.earsPatterns (pyStrip rawLine) = false ∧
         searchAny P.generalPatterns (pyStrip rawLine) = false ∧
         searchAny P.userStoryPatterns (pyStrip rawLine) = false)) →
      extractLineRequirement P filePath lineNum rawLine = none) ∧
    (∀ lineNum rawLine r,
      extractLineRequirement P filePath lineNum rawLine = some r →
      r.lineNumber = lineNum ∧ r.sourceFile = filePath ∧
      r.text = pyStrip rawLine ∧
      ((searchAny P.earsPatterns (pyStrip rawLine) = true ∧
          r.requirementType = RequirementType.ears ∧ r.confidence = mkRat 9 10) ∨
       (searchAny P.earsPatterns (pyStrip rawLine) = false ∧
          searchAny P.generalPatterns (pyStrip rawLine) = true ∧
          r.requirementType = RequirementType.general ∧ r.confidence = mkRat 7 10) ∨
       (searchAny P.earsPatterns (pyStrip rawLine) = false ∧
          searchAny P.generalPatterns (pyStrip rawLine) = false ∧
          searchAny P.userStoryPatterns (pyStrip rawLine) = true ∧
          r.requirementType = RequirementType.userStory ∧
          r.confidence = mkRat 8 10))) ∧
    (∀ lineNum rawLine, (pyStrip rawLine).isEmpty = false →
      (searchAny P.earsPatterns (pyStrip rawLine) = true →
        ∃ r, extractLineRequirement P filePath lineNum rawLine = some r ∧
          r.requirementType = RequirementType.ears) ∧
      (searchAny P.earsPatterns (pyStrip rawLine) = false →
        searchAny P.generalPatterns (pyStrip rawLine) = true →
        ∃ r, extractLineRequirement P filePath lineNum rawLine = some r ∧
          r.requirementType = RequirementType.general) ∧
      (searchAny P.earsPatterns (pyStrip rawLine) = false →
        searchAny P.generalPatterns (pyStrip rawLine) = false →
        searchAny P.userStoryPatterns (pyStrip rawLine) = true →
        ∃ r, extractLineRequirement P filePath lineNum rawLine = some r ∧
          r.requirementType = RequirementType.userStory)) := by
  refine ⟨extractLoop_pairwise P filePath (pyLines content) 1, ?_, ?_, ?_, ?_⟩
  · intro r hr
    obtain ⟨i, hi, hnum, hext⟩ :=
      extractLoop_mem P filePath (pyLines content) 1 r hr
    exact ⟨i, hi, hnum, hext⟩
  · intro lineNum rawLine h
    exact extractLine_none_cases P filePath lineNum rawLine h
  · intro lineNum rawLine r h
    obtain ⟨h1, h2, h3, _, h5⟩ :=
      extractLine_some_fields P filePath lineNum rawLine r h
    exact ⟨h1, h2, h3, h5⟩
  · intro lineNum rawLine hne
    exact extractLine_first_family P filePath lineNum rawLine hne

/-! ## C3/C4: directory creator lemmas -/

theorem lookupEntries_append (l1 l2 : List (FsPath × FsEntry)) (q : FsPath) :
    Fs.lookupEntries (l1 ++ l2) q =
      match Fs.lookupEntries l1 q with
      | some e => some e
      | none => Fs.lookupEntries l2 q := by
  induction l1 with
  | nil => simp [Fs.lookupEntries]
  | cons a l1 ih =>
    by_cases ha : a.1 = q
    · simp [Fs.lookupEntries, ha]
    · simpa [Fs.lookupEntries, ha] using ih

theorem lookupEntries_eq_none (l : List (FsPath × FsEntry)) (q : FsPath)
    (h : ∀ x ∈ l, ¬ x.1 = q) : Fs.lookupEntries l q = none := by
  induction l with
  | nil => rfl
  | cons a l ih =>
    have ha : ¬ a.1 = q := h a (List.mem_cons_self a l)
    simp only [Fs.lookupEntries, ha, if_false]
    exact ih (fun x hx => h x (List.mem_cons.mpr (Or.inr hx)))

theorem lookupEntries_mem (l : List (FsPath × FsEntry)) (q : FsPath)
    (e : FsEntry) (h : Fs.lookupEntries l q = some e) : (q, e) ∈ l := by
  induction l with
  | nil => simp [Fs.lookupEntries] at h
  | cons a l ih =>
    by_cases ha : a.1 = q
    · simp only [Fs.lookupEntries, ha, if_true, Option.some.injEq] at h
      have h2 : a = (q, e) := Prod.ext ha h
      exact h2 ▸ List.mem_cons_self a l
    · simp only [Fs.lookupEntries, ha, if_false] at h
      exact List.mem_cons.mpr (Or.inr (ih h))

theorem isFileAt_iff (fs : Fs) (p : FsPath) :
    isFileAt fs p = true ↔ ∃ c, fs.lookup p = some (FsEntry.file c) := by
  unfold isFileAt
  cases h : fs.lookup p with
  | none => simp
  | some e => cases e <;> simp

theorem isDirAt_iff (fs : Fs) (p : FsPath) :
    isDirAt fs p = true ↔ fs.lookup p = some FsEntry.dir := by
  unfold isDirAt
  cases h : fs.lookup p with
  | none => simp
  | some e => cases e <;> simp

theorem mkdirParents_entries {fs fs2 : Fs} {p : FsPath}
    (hmk : mkdirParents fs p = some fs2) :
    fs2.entries = ((parentChain p).filter (fun x => !existsAt fs x)).map
      (fun x => (x, FsEntry.dir)) ++ fs.entries := by
  unfold mkdirParents at hmk
  by_cases hc : (parentChain p).any (fun x => isFileAt fs x) = true
  · rw [if_pos hc] at hmk
    exact Option.noConfusion hmk
  · rw [if_neg hc] at hmk
    have h2 := Option.some.inj hmk
    rw [← h2]

theorem mkdirParents_lookup_preserve {fs fs2 : Fs} {p : FsPath}
    (hmk : mkdirParents fs p = some fs2) (q : FsPath) (e : FsEntry)
    (h : fs.lookup q = some e) : fs2.lookup q = some e := by
  show Fs.lookupEntries fs2.entries q = some e
  rw [mkdirParents_entries hmk, lookupEntries_append]
  have hnone : Fs.lookupEntries
      (((parentChain p).filter (fun x => !existsAt fs x)).map
        (fun x => (x, FsEntry.dir))) q = none := by
    apply lookupEntries_eq_none
    intro x hx hq
    obtain ⟨x0, hx0, hx0e⟩ := List.mem_map.mp hx
    have hfilt := List.of_mem_filter hx0
    rw [← hx0e] at hq
    simp only at hq
    rw [hq] at hfilt
    have hnoq : fs.lookup q = none :=
      (existsAt_eq_false_iff fs q).mp (by simpa using hfilt)
    rw [hnoq] at h
    exact Option.noConfusion h
  rw [hnone]
  exact h

theorem parentChain_self_mem {p : FsPath} (hp : p ≠ []) : p ∈ parentChain p := by
  unfold parentChain
  have hlen : 0 < p.length := List.length_pos.mpr hp
  refine List.mem_map.mpr ⟨p.length - 1, ?_, ?_⟩
  · exact List.mem_range.mpr (by omega)
  · have h2 : p.length - 1 + 1 = p.length := by omega
    rw [h2, List.take_length]

theorem mkdirParents_target_dir {fs fs2 : Fs} {p : FsPath} (hp : p ≠ [])
    (hmk : mkdirParents fs p = some fs2) (hnone : fs.lookup p = none) :
    fs2.lookup p = some FsEntry.dir := by
  show Fs.lookupEntries fs2.entries p = some FsEntry.dir
  rw [mkdirParents_entries hmk, lookupEntries_append]
  have hmem : (p, FsEntry.dir) ∈ ((parentChain p).filter
      (fun x => !existsAt fs x)).map (fun x => (x, FsEntry.dir)) := by
    refine List.mem_map.mpr ⟨p, ?_, rfl⟩
    refine List.mem_filter.mpr ⟨parentChain_self_mem hp, ?_⟩
    simp [existsAt, hnone]
  have hsome : (Fs.lookupEntries (((parentChain p).filter
      (fun x => !existsAt fs x)).map (fun x => (x, FsEntry.dir))) p).isSome = true :=
    Fs.lookup_isSome_of_mem ⟨_⟩ p FsEntry.dir hmem
  obtain ⟨e, he⟩ := Option.isSome_iff_exists.mp hsome
  have hmem2 := lookupEntries_mem _ _ _ he
  obtain ⟨x0, _, hx0e⟩ := List.mem_map.mp hmem2
  have hedir : e = FsEntry.dir := (congrArg Prod.snd hx0e).symm
  rw [he, hedir]

/-- `createStep` only extends the accumulator lists, and its behavior
depends on the incoming state only through the filesystem. -/
theorem createStep_decompose (pd : FsPath) (st : CreatorState) (d : TargetDir) :
    createStep pd st d =
      { fs := (createStep pd (creatorInit st.fs) d).fs,
        created := st.created ++ (createStep pd (creatorInit st.fs) d).created,
        failed := st.failed ++ (createStep pd (creatorInit st.fs) d).failed,
        errors := st.errors ++ (createStep pd (creatorInit st.fs) d).errors,
        warnings := st.warnings ++ (createStep pd (creatorInit st.fs) d).warnings,
        ops := st.ops ++ (createStep pd (creatorInit st.fs) d).ops } := by
  by_cases h1 : existsAt st.fs (resolveTarget pd d) = true
  · by_cases h2 : isDirAt st.fs (resolveTarget pd d) = true
    · simp [createStep, creatorInit, h1, h2]
    · simp [createStep, creatorInit, h1, h2]
  · cases hek : ensure_directory_exists st.fs (resolveTarget pd d) with
    | mk b fs2 =>
      cases b with
      | true => simp [createStep, creatorInit, h1, hek]
      | false => simp [createStep, creatorInit, h1, hek]

/-- The loop decomposes the same way. -/
theorem foldl_createStep_decompose (pd : FsPath) :
    ∀ (l : List TargetDir) (st : CreatorState),
      l.foldl (createStep pd) st =
        { fs := (runCreate pd st.fs l).fs,
          created := st.created ++ (runCreate pd st.fs l).created,
          failed := st.failed ++ (runCreate pd st.fs l).failed,
          errors := st.errors ++ (runCreate pd st.fs l).errors,
          warnings := st.warnings ++ (runCreate pd st.fs l).warnings,
          ops := st.ops ++ (runCreate pd st.fs l).ops } := by
  intro l
  induction l with
  | nil =>
    intro st
    cases st
    simp [runCreate, creatorInit]
  | cons d l ih =>
    intro st
    have hr : runCreate pd st.fs (d :: l) =
        l.foldl (createStep pd) (createStep pd (creatorInit st.fs) d) := rfl
    rw [List.foldl_cons, ih, hr, ih]
    rw [createStep_decompose pd st d]
    have hfs0 : (creatorInit st.fs).fs = st.fs := rfl
    simp [creatorInit, List.append_assoc]

theorem createStep_lookup_preserve (pd : FsPath) (st : CreatorState)
    (d : TargetDir) (q : FsPath) (e : FsEntry)
    (h : st.fs.lookup q = some e) : (createStep pd st d).fs.lookup q = some e := by
  unfold createStep
  by_cases h1 : existsAt st.fs (resolveTarget pd d) = true
  · by_cases h2 : isDirAt st.fs (resolveTarget pd d) = true
    · simpa [h1, h2] using h
    · simpa [h1, h2] using h
  · simp only [h1, Bool.false_eq_true, if_false]
    unfold ensure_directory_exists
    simp only [h1, Bool.false_eq_true, if_false]
    cases hmk : mkdirParents st.fs (resolveTarget pd d) with
    | some fs2 => simpa using mkdirParents_lookup_preserve hmk q e h
    | none => simpa using h

theorem foldl_createStep_lookup_preserve (pd : FsPath) :
    ∀ (l : List TargetDir) (st : CreatorState) (q : FsPath) (e : FsEntry),
      st.fs.lookup q = some e →
      ((l.foldl (createStep pd) st).fs).lookup q = some e := by
  intro l
  induction l with
  | nil => intro st q e h; exact h
  | cons d l ih =>
    intro st q e h
    rw [List.foldl_cons]
    exact ih (createStep pd st d) q e (createStep_lookup_preserve pd st d q e h)

/-- A step of a fully successful run leaves its target existing as a
directory (relative targets, existing project root). -/
theorem createStep_ok_target (pd : FsPath) (st : CreatorState) (d : TargetDir)
    (hroot : existsAt st.fs pd = true) (habs : d.absolute = false)
    (hfail : (createStep pd st d).failed = st.failed) :
    (createStep pd st d).fs.lookup (resolveTarget pd d) = some FsEntry.dir ∧
    existsAt (createStep pd st d).fs pd = true := by
  by_cases h1 : existsAt st.fs (resolveTarget pd d) = true
  · by_cases h2 : isDirAt st.fs (resolveTarget pd d) = true
    · have hd := (isDirAt_iff st.fs (resolveTarget pd d)).mp h2
      constructor
      · simpa [createStep, h1, h2] using hd
      · simpa [createStep, h1, h2] using hroot
    · exfalso
      have hf2 : (createStep pd st d).failed = st.failed ++
          [(resolveTarget pd d, "Path exists but is not a directory: "
            ++ showPath (resolveTarget pd d))] := by
        simp [createStep, h1, h2]
      rw [hf2] at hfail
      have hlen := congrArg List.length hfail
      simp at hlen
  · have h1f : existsAt st.fs (resolveTarget pd d) = false := Bool.eq_false_iff.mpr h1
    have htarget : resolveTarget pd d = pd ++ d.comps := by
      simp [resolveTarget, habs]
    have htgt_ne : resolveTarget pd d ≠ [] := by
      intro hnil
      rw [htarget] at hnil
      have hcomps : d.comps = [] := (List.append_eq_nil.mp hnil).2
      have heq : resolveTarget pd d = pd := by
        rw [htarget, hcomps, List.append_nil]
      rw [heq, hroot] at h1f
      exact Bool.noConfusion h1f
    have hnone : st.fs.lookup (resolveTarget pd d) = none :=
      (existsAt_eq_false_iff st.fs (resolveTarget pd d)).mp h1f
    cases hmk : mkdirParents st.fs (resolveTarget pd d) with
    | some fs2 =>
      have hfs : (createStep pd st d).fs = fs2 := by
        simp [createStep, ensure_directory_exists, h1f, hmk]
      rw [hfs]
      constructor
      · exact mkdirParents_target_dir htgt_ne hmk hnone
      · obtain ⟨e, he⟩ := Option.isSome_iff_exists.mp hroot
        have hpres := mkdirParents_lookup_preserve hmk pd e he
        simp [existsAt, hpres]
    | none =>
      exfalso
      have hf2 : (createStep pd st d).failed = st.failed ++
          [(resolveTarget pd d, "Failed to create directory: "
            ++ showPath (resolveTarget pd d))] := by
        simp [createStep, ensure_directory_exists, h1f, hmk]
      rw [hf2] at hfail
      have hlen := congrArg List.length hfail
      simp at hlen

/-- After a run that records no failure, every (relative) target exists as
a directory in the final filesystem, and the project root still exists. -/
theorem foldl_createStep_targets_dir (pd : FsPath) :
    ∀ (l : List TargetDir) (st : CreatorState),
      existsAt st.fs pd = true →
      (∀ d ∈ l, d.absolute = false) →
      (l.foldl (createStep pd) st).failed = st.failed →
      (∀ d ∈ l, ((l.foldl (createStep pd) st).fs).lookup (resolveTarget pd d)
        = some FsEntry.dir) ∧
      existsAt ((l.foldl (createStep pd) st).fs) pd = true := by
  intro l
  induction l with
  | nil => intro st hroot _ _; exact ⟨by simp, hroot⟩
  | cons d l ih =>
    intro st hroot habs hfail
    rw [List.foldl_cons] at hfail ⊢
    have hq1 : (createStep pd st d).failed
        = st.failed ++ (createStep pd (creatorInit st.fs) d).failed := by
      rw [createStep_decompose pd st d]
    have hq2 : (l.foldl (createStep pd) (createStep pd st d)).failed
        = (createStep pd st d).failed
          ++ (runCreate pd (createStep pd st d).fs l).failed := by
      rw [foldl_createStep_decompose pd l (createStep pd st d)]
    rw [hq2, hq1] at hfail
    have hlen := congrArg List.length hfail
    simp only [List.length_append] at hlen
    have hA : (createStep pd (creatorInit st.fs) d).failed = [] :=
      List.eq_nil_of_length_eq_zero (by omega)
    have hB : (runCreate pd (createStep pd st d).fs l).failed = [] :=
      List.eq_nil_of_length_eq_zero (by omega)
    have hstepfail : (createStep pd st d).failed = st.failed := by
      rw [hq1, hA, List.append_nil]
    have hstep := createStep_ok_target pd st d hroot
      (habs d (List.mem_cons_self d l)) hstepfail
    have hfail2 : (l.foldl (createStep pd) (createStep pd st d)).failed
        = (createStep pd st d).failed := by
      rw [hq2, hB, List.append_nil]
    have ihres := ih (createStep pd st d) hstep.2
      (fun d2 hd2m => habs d2 (List.mem_cons.mpr (Or.inr hd2m))) hfail2
    refine ⟨?_, ihres.2⟩
    intro d2 hd2m
    rcases List.mem_cons.mp hd2m with h | h
    · rw [h]
      exact foldl_createStep_lookup_preserve pd l (createStep pd st d) _ _ hstep.1
    · exact ihres.1 d2 h

/-- When every target already exists as a directory, the run only records
one "already exists" warning per target and changes nothing else. -/
theorem foldl_createStep_all_warn (pd : FsPath) :
    ∀ (l : List TargetDir) (st : CreatorState),
      (∀ d ∈ l, st.fs.lookup (resolveTarget pd d) = some FsEntry.dir) →
      l.foldl (createStep pd) st =
        { st with
          warnings := st.warnings ++ l.map
            (fun d => "Directory already exists: " ++ showPath (resolveTarget pd d)) } := by
  intro l
  induction l with
  | nil => intro st _; cases st; simp
  | cons d l ih =>
    intro st hdirs
    have hd := hdirs d (List.mem_cons_self d l)
    have hex : existsAt st.fs (resolveTarget pd d) = true := by simp [existsAt, hd]
    have hdir : isDirAt st.fs (resolveTarget pd d) = true := (isDirAt_iff _ _).mpr hd
    have hstep : createStep pd st d =
        { st with
          warnings := st.warnings ++
            ["Directory already exists: " ++ showPath (resolveTarget pd d)] } := by
      simp [createStep, hex, hdir]
    have hrest := ih
      { st with
        warnings := st.warnings ++
          ["Directory already exists: " ++ showPath (resolveTarget pd d)] }
      (fun d2 hd2 => hdirs d2 (List.mem_cons.mpr (Or.inr hd2)))
    rw [List.foldl_cons, hstep, hrest]
    simp [List.append_assoc]

/-- C3: after a fully successful `create_missing_directories` call over
relative directories, repeating the call creates zero new directories,
records one "already exists" warning per requested directory, records no
failure, tracks no operation, returns success, and leaves the filesystem
unchanged. -/
theorem create_missing_directories_idempotent
    (fs : Fs) (projectDir : FsPath) (missingDirs : List TargetDir)
    (habs : ∀ d ∈ missingDirs, d.absolute = false)
    (res1 : CreationResult) (fs1 : Fs) (ops1 : List FileOperation)
    (h1 : create_missing_directories fs projectDir missingDirs
      = Except.ok (res1, fs1, ops1))
    (hok : res1.failed_directories = []) :
    create_missing_directories fs1 projectDir missingDirs = Except.ok
      ({ created_directories := [], failed_directories := [], success := true,
         errors := [],
         warnings := missingDirs.map (fun d =>
           "Directory already exists: " ++ showPath (resolveTarget projectDir d)) },
       fs1, []) := by
  unfold create_missing_directories at h1
  cases hex : existsAt fs projectDir with
  | false => rw [hex] at h1; simp at h1
  | true =>
    rw [hex] at h1
    simp only [Bool.not_true, Bool.false_eq_true, if_false] at h1
    rw [Except.ok.injEq, Prod.mk.injEq] at h1
    obtain ⟨hres, h1b⟩ := h1
    rw [Prod.mk.injEq] at h1b
    obtain ⟨hfs1, hops⟩ := h1b
    have hfailed : (missingDirs.foldl (createStep projectDir)
        (creatorInit fs)).failed = res1.failed_directories :=
      congrArg CreationResult.failed_directories hres
    rw [hok] at hfailed
    have hroot0 : existsAt (creatorInit fs).fs projectDir = true := hex
    have hdirs := foldl_createStep_targets_dir projectDir missingDirs
      (creatorInit fs) hroot0 habs (by rw [hfailed]; rfl)
    have hfs1b : (missingDirs.foldl (createStep projectDir)
        (creatorInit fs)).fs = fs1 := hfs1
    unfold create_missing_directories
    have hex1 : existsAt fs1 projectDir = true := by
      rw [← hfs1b]
      exact hdirs.2
    rw [hex1]
    simp only [Bool.not_true, Bool.false_eq_true, if_false]
    have hwarn : missingDirs.foldl (createStep projectDir)
        { fs := fs1, created := [], failed := [], errors := [],
          warnings := [], ops := [] } =
        { fs := fs1, created := [], failed := [], errors := [],
          warnings := [] ++ missingDirs.map (fun d =>
            "Directory already exists: " ++ showPath (resolveTarget projectDir d)),
          ops := [] } :=
      foldl_createStep_all_warn projectDir missingDirs _ (by
        intro d hd
        show fs1.lookup (resolveTarget projectDir d) = some FsEntry.dir
        rw [← hfs1b]
        exact hdirs.1 d hd)
    rw [hwarn]
    simp

/-- Witness for C3: creating `specs` and `docs` under an existing project
root, then repeating the call. -/
theorem create_missing_directories_idempotent_witness :
    create_missing_directories
      ⟨[(["proj", "docs"], FsEntry.dir), (["proj", "specs"], FsEntry.dir),
        (["proj"], FsEntry.dir)]⟩
      ["proj"]
      [{ absolute := false, comps := ["specs"] },
       { absolute := false, comps := ["docs"] }] = Except.ok
      ({ created_directories := [], failed_directories := [], success := true,
         errors := [],
         warnings := [({ absolute := false, comps := ["specs"] } : TargetDir),
           { absolute := false, comps := ["docs"] }].map (fun d =>
           "Directory already exists: " ++ showPath (resolveTarget ["proj"] d)) },
       ⟨[(["proj", "docs"], FsEntry.dir), (["proj", "specs"], FsEntry.dir),
         (["proj"], FsEntry.dir)]⟩, []) :=
  create_missing_directories_idempotent
    ⟨[(["proj"], FsEntry.dir)]⟩ ["proj"]
    [{ absolute := false, comps := ["specs"] },
     { absolute := false, comps := ["docs"] }]
    (by decide)
    { created_directories := [["proj", "specs"], ["proj", "docs"]],
      failed_directories := [], success := true, errors := [], warnings := [] }
    ⟨[(["proj", "docs"], FsEntry.dir), (["proj", "specs"], FsEntry.dir),
      (["proj"], FsEntry.dir)]⟩
    [{ operationType := "CREATE", sourcePath := none,
       targetPath := ["proj", "specs"] },
     { operationType := "CREATE", sourcePath := none,
       targetPath := ["proj", "docs"] }]
    rfl rfl

/-- A target that exists as a file produces exactly one failure record with
the "Path exists but is not a directory" message and changes nothing else. -/
theorem createStep_file (pd : FsPath) (st : CreatorState) (d : TargetDir)
    (hfile : isFileAt st.fs (resolveTarget pd d) = true) :
    createStep pd st d =
      { st with
        errors := st.errors ++ ["Path exists but is not a directory: "
          ++ showPath (resolveTarget pd d)],
        failed := st.failed ++ [(resolveTarget pd d,
          "Path exists but is not a directory: "
            ++ showPath (resolveTarget pd d))] } := by
  obtain ⟨c, hc⟩ := (isFileAt_iff _ _).mp hfile
  have hex : existsAt st.fs (resolveTarget pd d) = true := by simp [existsAt, hc]
  have hdir : isDirAt st.fs (resolveTarget pd d) = false := by simp [isDirAt, hc]
  simp [createStep, hex, hdir]

/-- C4: `create_missing_directories` raises exactly when the project root
does not exist; otherwise it returns a result whose success is true iff no
directory failed; and a target existing as a non-directory is recorded as
one failure ("Path exists but is not a directory") while every remaining
target is still processed exactly as it would have been without the bad
one. -/
theorem create_missing_directories_partial_failure (fs : Fs) (projectDir : FsPath) :
    (∀ (missingDirs : List TargetDir) (msg : String),
      create_missing_directories fs projectDir missingDirs = Except.error msg →
      existsAt fs projectDir = false ∧
      msg = "Project directory does not exist: " ++ showPath projectDir) ∧
    (existsAt fs projectDir = false →
      ∀ missingDirs, create_missing_directories fs projectDir missingDirs =
        Except.error ("Project directory does not exist: " ++ showPath projectDir)) ∧
    (∀ missingDirs res fsr ops,
      create_missing_directories fs projectDir missingDirs
        = Except.ok (res, fsr, ops) →
      (res.success = true ↔ res.failed_directories = [])) ∧
    (∀ (l1 l2 : List TargetDir) (d : TargetDir) resAll fsAll opsAll res1 fsr1 ops1,
      isFileAt fs (resolveTarget projectDir d) = true →
      create_missing_directories fs projectDir (l1 ++ d :: l2)
        = Except.ok (resAll, fsAll, opsAll) →
      create_missing_directories fs projectDir (l1 ++ l2)
        = Except.ok (res1, fsr1, ops1) →
      resAll.created_directories = res1.created_directories ∧
      resAll.warnings = res1.warnings ∧ fsAll = fsr1 ∧ opsAll = ops1 ∧
      resAll.success = false ∧
      (∃ f1 f2, res1.failed_directories = f1 ++ f2 ∧
        resAll.failed_directories = f1 ++ (resolveTarget projectDir d,
          "Path exists but is not a directory: "
            ++ showPath (resolveTarget projectDir d)) :: f2)) := by
  refine ⟨?_, ?_, ?_, ?_⟩
  · intro missingDirs msg h
    unfold create_missing_directories at h
    cases hex : existsAt fs projectDir with
    | false =>
      rw [hex] at h
      simp only [Bool.not_false, if_true, Except.error.injEq] at h
      exact ⟨rfl, h.symm⟩
    | true =>
      rw [hex] at h
      simp at h
  · intro hex missingDirs
    unfold create_missing_directories
    rw [hex]
    simp
  · intro missingDirs res fsr ops h
    unfold create_missing_directories at h
    cases hex : existsAt fs projectDir with
    | false => rw [hex] at h; simp at h
    | true =>
      rw [hex] at h
      simp only [Bool.not_true, Bool.false_eq_true, if_false] at h
      rw [Except.ok.injEq, Prod.mk.injEq] at h
      obtain ⟨hres, -⟩ := h
      have hsucc : res.success = (missingDirs.foldl (createStep projectDir)
          { fs := fs, created := [], failed := [], errors := [],
            warnings := [], ops := [] }).failed.isEmpty :=
        (congrArg CreationResult.success hres).symm
      have hfld : res.failed_directories = (missingDirs.foldl (createStep projectDir)
          { fs := fs, created := [], failed := [], errors := [],
            warnings := [], ops := [] }).failed :=
        (congrArg CreationResult.failed_directories hres).symm
      rw [hsucc, hfld]
      exact List.isEmpty_iff
  · intro l1 l2 d resAll fsAll opsAll res1 fsr1 ops1 hfile hAll h12
    unfold create_missing_directories at hAll h12
    cases hex : existsAt fs projectDir with
    | false => rw [hex] at hAll; simp at hAll
    | true =>
      rw [hex] at hAll h12
      simp only [Bool.not_true, Bool.false_eq_true, if_false] at hAll h12
      rw [Except.ok.injEq, Prod.mk.injEq] at hAll h12
      obtain ⟨hresAll, hAllb⟩ := hAll
      rw [Prod.mk.injEq] at hAllb
      obtain ⟨hfsAll, hopsAll⟩ := hAllb
      obtain ⟨hres1, h12b⟩ := h12
      rw [Prod.mk.injEq] at h12b
      obtain ⟨hfs1, hops1⟩ := h12b
      have hfile1 : isFileAt (l1.foldl (createStep projectDir)
          { fs := fs, created := [], failed := [], errors := [],
            warnings := [], ops := [] }).fs (resolveTarget projectDir d) = true := by
        obtain ⟨c, hc⟩ := (isFileAt_iff _ _).mp hfile
        exact (isFileAt_iff _ _).mpr ⟨c,
          foldl_createStep_lookup_preserve projectDir l1 _ _ _ hc⟩
      have hstep := createStep_file projectDir
        (l1.foldl (createStep projectDir)
          { fs := fs, created := [], failed := [], errors := [],
            warnings := [], ops := [] }) d hfile1
      have hAllEq : (l1 ++ d :: l2).foldl (createStep projectDir)
          { fs := fs, created := [], failed := [], errors := [],
            warnings := [], ops := [] }
          = l2.foldl (createStep projectDir)
              (createStep projectDir (l1.foldl (createStep projectDir)
                { fs := fs, created := [], failed := [], errors := [],
                  warnings := [], ops := [] }) d) := by
        rw [List.foldl_append, List.foldl_cons]
      have h12Eq : (l1 ++ l2).foldl (createStep projectDir)
          { fs := fs, created := [], failed := [], errors := [],
            warnings := [], ops := [] }
          = l2.foldl (createStep projectDir)
              (l1.foldl (createStep projectDir)
                { fs := fs, created := [], failed := [], errors := [],
                  warnings := [], ops := [] }) := by
        rw [List.foldl_append]
      rw [hAllEq, hstep,
        foldl_createStep_decompose projectDir l2 _] at hresAll hfsAll hopsAll
      rw [h12Eq, foldl_createStep_decompose projectDir l2 _] at hres1 hfs1 hops1
      refine ⟨?_, ?_, ?_, ?_, ?_, ?_⟩
      · rw [← hresAll, ← hres1]
      · rw [← hresAll, ← hres1]
      · rw [← hfsAll, ← hfs1]
      · rw [← hopsAll, ← hops1]
      · rw [← hresAll]
        simp
      · refine ⟨(l1.foldl (createStep projectDir)
          { fs := fs, created := [], failed := [], errors := [],
            warnings := [], ops := [] }).failed,
          (runCreate projectDir (l1.foldl (createStep projectDir)
            { fs := fs, created := [], failed := [], errors := [],
              warnings := [], ops := [] }).fs l2).failed, ?_, ?_⟩
        · rw [← hres1]
        · rw [← hresAll]
          simp

/-! ## C6/C10: deduplication -/

theorem are_similar_true_jaccard {t1 t2 : String} {θ : ℚ}
    (h : are_similar t1 t2 θ = true) : θ ≤ specJaccard t1 t2 := by
  simp only [are_similar] at h
  simp only [specJaccard]
  by_cases hemp : ((pyWords (normalize_text t1)).dedup.isEmpty
      || (pyWords (normalize_text t2)).dedup.isEmpty) = true
  · rw [if_pos hemp] at h
    exact Bool.noConfusion h
  · rw [if_neg hemp] at h
    simp only [decide_eq_true_eq] at h
    exact h

theorem are_similar_false_jaccard {t1 t2 : String} {θ : ℚ} (hθ : 0 < θ)
    (h : are_similar t1 t2 θ = false) : specJaccard t1 t2 < θ := by
  simp only [are_similar] at h
  simp only [specJaccard]
  by_cases h1 : (pyWords (normalize_text t1)).dedup.isEmpty = true
  · have hinter : setInterLen (pyWords (normalize_text t1)).dedup
        (pyWords (normalize_text t2)).dedup = 0 := by
      unfold setInterLen
      rw [List.isEmpty_iff.mp h1]
      rfl
    rw [hinter]
    simpa [mkRat] using hθ
  · by_cases h2 : (pyWords (normalize_text t2)).dedup.isEmpty = true
    · have hinter : setInterLen (pyWords (normalize_text t1)).dedup
          (pyWords (normalize_text t2)).dedup = 0 := by
        unfold setInterLen
        rw [List.isEmpty_iff.mp h2]
        simp [List.contains]
      rw [hinter]
      simpa [mkRat] using hθ
    · have hemp : ((pyWords (normalize_text t1)).dedup.isEmpty
          || (pyWords (normalize_text t2)).dedup.isEmpty) = false := by
        rw [Bool.eq_false_iff.mpr h1, Bool.eq_false_iff.mpr h2]
        rfl
      rw [hemp] at h
      simp only [Bool.false_eq_true, if_false, decide_eq_false_iff_not] at h
      exact lt_of_not_le h

theorem contains_map_norm (unique : List ExtractedRequirement) (s : String) :
    (unique.map (fun r => normalize_text r.text)).contains s = true ↔
      ∃ u ∈ unique, normalize_text u.text = s := by
  rw [List.contains_iff_exists_mem_beq]
  constructor
  · rintro ⟨a, ha, hbeq⟩
    obtain ⟨u, hu, hue⟩ := List.mem_map.mp ha
    exact ⟨u, hu, by rw [hue]; exact (eq_of_beq hbeq).symm⟩
  · rintro ⟨u, hu, hue⟩
    exact ⟨s, List.mem_map.mpr ⟨u, hu, hue⟩, by simp⟩

/-- What one full run of the deduplication loop produces: the kept
requirements extend `unique` by a subsequence of the pending list, the
whole kept list is pairwise non-duplicate and non-similar, and every
pending requirement has a kept requirement it normalizes to or is similar
to. -/
theorem dedupLoop_spec :
    ∀ (pending unique : List ExtractedRequirement) (seen : List String),
      seen = unique.map (fun r => normalize_text r.text) →
      unique.Pairwise dedupKeepRel →
      ∃ kept, dedupLoop pending unique seen = unique ++ kept ∧
        kept.Sublist pending ∧
        (unique ++ kept).Pairwise dedupKeepRel ∧
        (∀ r ∈ pending, ∃ r2 ∈ unique ++ kept,
          normalize_text r2.text = normalize_text r.text ∨
            are_similar r.text r2.text (mkRat 8 10) = true) := by
  intro pending
  induction pending with
  | nil =>
    intro unique seen hseen hpair
    exact ⟨[], by simp [dedupLoop], List.Sublist.refl [],
      by simpa using hpair, by simp⟩
  | cons req rest ih =>
    intro unique seen hseen hpair
    rw [dedupLoop]
    cases hcont : seen.contains (normalize_text req.text) with
    | true =>
      have hcont2 : (unique.map (fun r => normalize_text r.text)).contains
          (normalize_text req.text) = true := by rw [← hseen]; exact hcont
      obtain ⟨u, hu, hun⟩ := (contains_map_norm unique _).mp hcont2
      simp only [hcont, if_true]
      obtain ⟨kept, hloop, hsub, hkpair, hcover⟩ := ih unique seen hseen hpair
      refine ⟨kept, hloop, hsub.cons req, hkpair, ?_⟩
      intro r hr
      rcases List.mem_cons.mp hr with h | h
      · exact ⟨u, List.mem_append.mpr (Or.inl hu), Or.inl (by rw [hun, h])⟩
      · exact hcover r h
    | false =>
      simp only [hcont, Bool.false_eq_true, if_false]
      cases hsim : unique.any
          (fun ex => are_similar req.text ex.text (mkRat 8 10)) with
      | true =>
        obtain ⟨ex, hex, hexs⟩ := List.any_eq_true.mp hsim
        simp only [if_true]
        obtain ⟨kept, hloop, hsub, hkpair, hcover⟩ := ih unique seen hseen hpair
        refine ⟨kept, hloop, hsub.cons req, hkpair, ?_⟩
        intro r hr
        rcases List.mem_cons.mp hr with h | h
        · exact ⟨ex, List.mem_append.mpr (Or.inl hex),
            Or.inr (by rw [h]; exact hexs)⟩
        · exact hcover r h
      | false =>
        simp only [Bool.false_eq_true, if_false]
        have hall := List.any_eq_false.mp hsim
        have hcross : ∀ u ∈ unique, dedupKeepRel u req := by
          intro u hu
          constructor
          · intro hne
            have hc2 : (unique.map (fun r => normalize_text r.text)).contains
                (normalize_text req.text) = true :=
              (contains_map_norm unique _).mpr ⟨u, hu, hne.symm⟩
            rw [← hseen, hcont] at hc2
            exact Bool.noConfusion hc2
          · exact Bool.eq_false_iff.mpr (hall u hu)
        have hseen2 : seen ++ [normalize_text req.text] =
            (unique ++ [req]).map (fun r => normalize_text r.text) := by
          rw [hseen, List.map_append]
          rfl
        have hpair2 : (unique ++ [req]).Pairwise dedupKeepRel := by
          rw [List.pairwise_append]
          refine ⟨hpair, List.pairwise_singleton _ _, ?_⟩
          intro a ha b hb
          rw [List.mem_singleton.mp hb]
          exact hcross a ha
        obtain ⟨kept, hloop, hsub, hkpair, hcover⟩ :=
          ih (unique ++ [req]) (seen ++ [normalize_text req.text]) hseen2 hpair2
        have happ : (unique ++ [req]) ++ kept = unique ++ req :: kept := by
          simp
        refine ⟨req :: kept, ?_, hsub.cons₂ req, ?_, ?_⟩
        · rw [hloop, happ]
        · rw [← happ]
          exact hkpair
        · intro r hr
          rcases List.mem_cons.mp hr with h | h
          · exact ⟨req, List.mem_append.mpr (Or.inr (List.mem_cons_self req kept)),
              Or.inl (by rw [h])⟩
          · obtain ⟨r2, hr2, hrel⟩ := hcover r h
            rw [happ] at hr2
            exact ⟨r2, hr2, hrel⟩

/-- Running the loop on an already-deduplicated list keeps everything. -/
theorem dedupLoop_pairwise_id :
    ∀ (l unique : List ExtractedRequirement) (seen : List String),
      seen = unique.map (fun r => normalize_text r.text) →
      l.Pairwise dedupKeepRel →
      (∀ x ∈ l, ∀ u ∈ unique, dedupKeepRel u x) →
      dedupLoop l unique seen = unique ++ l := by
  intro l
  induction l with
  | nil => intro unique seen _ _ _; simp [dedupLoop]
  | cons r rest ih =>
    intro unique seen hseen hpair hcross
    rw [dedupLoop]
    have hcont : seen.contains (normalize_text r.text) = false := by
      cases hc : seen.contains (normalize_text r.text) with
      | false => rfl
      | true =>
        have hc2 : (unique.map (fun x => normalize_text x.text)).contains
            (normalize_text r.text) = true := by rw [← hseen]; exact hc
        obtain ⟨u, hu, hun⟩ := (contains_map_norm unique _).mp hc2
        exact absurd hun.symm (hcross r (List.mem_cons_self r rest) u hu).1
    have hsim : unique.any
        (fun ex => are_similar r.text ex.text (mkRat 8 10)) = false := by
      rw [List.any_eq_false]
      intro ex hex
      rw [(hcross r (List.mem_cons_self r rest) ex hex).2]
      simp
    simp only [hcont, hsim, Bool.false_eq_true, if_false]
    have hrest := ih (unique ++ [r]) (seen ++ [normalize_text r.text])
      (by rw [hseen, List.map_append]; rfl)
      ((List.pairwise_cons.mp hpair).2)
      (by
        intro x hx u hu
        rcases List.mem_append.mp hu with h | h
        · exact hcross x (List.mem_cons.mpr (Or.inr hx)) u h
        · rw [List.mem_singleton.mp h]
          exact (List.pairwise_cons.mp hpair).1 x hx)
    rw [hrest]
    simp

/-- C10: deduplication keeps a subsequence of its input in order; any two
retained requirements have distinct normalized texts and token-set Jaccard
similarity below the 0.8 threshold; and the function is idempotent. -/
theorem deduplicate_requirements_char (reqs : List ExtractedRequirement) :
    (deduplicate_requirements reqs).Sublist reqs ∧
    (deduplicate_requirements reqs).Pairwise (fun a b =>
      normalize_text b.text ≠ normalize_text a.text ∧
      specJaccard b.text a.text < mkRat 8 10) ∧
    deduplicate_requirements (deduplicate_requirements reqs)
      = deduplicate_requirements reqs := by
  obtain ⟨kept, hloop, hsub, hkpair, hcover⟩ :=
    dedupLoop_spec reqs [] [] rfl (List.Pairwise.nil)
  have hout : deduplicate_requirements reqs = kept := by
    rw [deduplicate_requirements, hloop]
    simp
  have hpairout : (deduplicate_requirements reqs).Pairwise dedupKeepRel := by
    rw [hout]
    simpa using hkpair
  refine ⟨by rw [hout]; exact hsub, ?_, ?_⟩
  · refine hpairout.imp ?_
    intro a b hrel
    exact ⟨hrel.1, are_similar_false_jaccard (by decide) hrel.2⟩
  · rw [deduplicate_requirements, dedupLoop_pairwise_id
      (deduplicate_requirements reqs) [] [] rfl hpairout (by simp)]
    simp

/-- C6 counterexample: two requirements with distinct normalized texts and
token-set Jaccard similarity exactly 0.8 — not exceeding the threshold —
of which deduplication nevertheless keeps only the first. -/
theorem dedup_threshold_counterexample :
    normalize_text "alpha bravo charlie delta"
      ≠ normalize_text "alpha bravo charlie delta echo" ∧
    specJaccard "alpha bravo charlie delta echo" "alpha bravo charlie delta"
      = mkRat 8 10 ∧
    ¬ mkRat 8 10 < mkRat 8 10 ∧
    (mkRat 8 10 : ℚ) = 8 / 10 ∧
    deduplicate_requirements
      [{ text := "alpha bravo charlie delta", sourceFile := "a.md",
         lineNumber := 1, requirementType := RequirementType.general,
         confidence := mkRat 7 10, context := "ctx" },
       { text := "alpha bravo charlie delta echo", sourceFile := "b.md",
         lineNumber := 2, requirementType := RequirementType.general,
         confidence := mkRat 7 10, context := "ctx" }] =
      [{ text := "alpha bravo charlie delta", sourceFile := "a.md",
         lineNumber := 1, requirementType := RequirementType.general,
         confidence := mkRat 7 10, context := "ctx" }] :=
  ⟨by decide, by decide, by decide, by norm_num [mkRat, Rat.normalize], by decide⟩

/-- C6 (amended): deduplication keeps at most one representative of any
normalized-identical group and drops any requirement at least 0.8-similar
to an already-kept one: the kept requirements, pairwise, have distinct
normalized texts, a failed `_are_similar` check, and token-set Jaccard
similarity strictly below the 0.8 threshold (so no kept requirement is
≥0.8-similar to an earlier-kept one); and every input requirement has a
kept requirement whose normalized text equals its own or whose token-set
Jaccard similarity to it is at least (≥, not strictly above) 0.8. -/
theorem deduplicate_requirements_amended (reqs : List ExtractedRequirement) :
    (∀ r2 ∈ deduplicate_requirements reqs, r2 ∈ reqs) ∧
    (deduplicate_requirements reqs).Pairwise (fun a b =>
      normalize_text b.text ≠ normalize_text a.text ∧
      are_similar b.text a.text (mkRat 8 10) = false ∧
      specJaccard b.text a.text < mkRat 8 10) ∧
    (∀ r ∈ reqs, ∃ r2 ∈ deduplicate_requirements reqs,
      normalize_text r2.text = normalize_text r.text ∨
        mkRat 8 10 ≤ specJaccard r.text r2.text) := by
  obtain ⟨kept, hloop, hsub, hkpair, hcover⟩ :=
    dedupLoop_spec reqs [] [] rfl (List.Pairwise.nil)
  have hout : deduplicate_requirements reqs = kept := by
    rw [deduplicate_requirements, hloop]
    simp
  refine ⟨?_, ?_, ?_⟩
  · intro r2 hr2
    rw [hout] at hr2
    exact hsub.mem hr2
  · rw [hout]
    exact (by simpa using hkpair : kept.Pairwise dedupKeepRel).imp
      (fun hrel => ⟨hrel.1, hrel.2,
        are_similar_false_jaccard (by decide) hrel.2⟩)
  · intro r hr
    obtain ⟨r2, hr2, hrel⟩ := hcover r hr
    rw [List.nil_append] at hr2
    rcases hrel with h | h
    · exact ⟨r2, by rw [hout]; exact hr2, Or.inl h⟩
    · exact ⟨r2, by rw [hout]; exact hr2, Or.inr (are_similar_true_jaccard h)⟩

/-! ## C7: format_as_ears renders only the EARS group -/

/-- C7: evaluating `format_as_ears` on a single general-type requirement.
The document contains the total count but mentions the requirement's
source file nowhere — general and user-story requirements are grouped but
never rendered, so their provenance is dropped. -/
theorem format_as_ears_drops_general :
    (formatLines "2024-01-01 00:00:00"
      [{ text := "The system must validate input", sourceFile := "test2.md",
         lineNumber := 2, requirementType := RequirementType.general,
         confidence := mkRat 7 10, context := "ctx" }]).all
      (fun l => !containsStr l "test2.md") = true ∧
    containsStr (format_as_ears "2024-01-01 00:00:00"
      [{ text := "The system must validate input", sourceFile := "test2.md",
         lineNumber := 2, requirementType := RequirementType.general,
         confidence := mkRat 7 10, context := "ctx" }]) "test2.md" = false ∧
    containsStr (format_as_ears "2024-01-01 00:00:00"
      [{ text := "The system must validate input", sourceFile := "test2.md",
         lineNumber := 2, requirementType := RequirementType.general,
         confidence := mkRat 7 10, context := "ctx" }])
      "**Total Requirements:** 1" = true ∧
    containsStr (format_as_ears "2024-01-01 00:00:00"
      [{ text := "The system must validate input", sourceFile := "test2.md",
         lineNumber := 2, requirementType := RequirementType.general,
         confidence := mkRat 7 10, context := "ctx" }])
      "The system must validate input" = false :=
  ⟨by decide, by decide, by decide, by decide⟩

end Gjalla
